import Mathlib

/-!
Verification development for the record reconciliation and derivation
engine of the introductions tracker.

The Python sources are shallowly embedded here:

* strings are `List Char` (`Str`), with Python `str.strip`, `str.upper`,
  `str.lower`, `re` substitutions and searches modelled by explicit
  recursive functions over the character list (ASCII semantics);
* spreadsheet cell values are the inductive `CellVal` (Python `None`,
  numbers, strings, datetimes); machine floats are idealised as exact
  rationals, with Python `round` modelled as round-half-even on ℚ;
* fallible coercions (`float(...)`, `int(...)`) return `Option`;
* `difflib.SequenceMatcher.ratio` is an external standard-library
  dependency of the matchers; it is modelled as an explicit function
  parameter `sim : Str → Str → ℚ` so every theorem quantifies over it.

Each embedded definition names the Python function it translates.
-/

/-- Strings are modelled as lists of characters. -/
abbrev Str := List Char

/-- Whitespace characters recognised by Python `str.strip` / `\s`
(ASCII subset). -/
def isSpc (c : Char) : Bool :=
  c = ' ' || c = '\t' || c = '\n' || c = '\r' || c = '\x0b' || c = '\x0c'

/-- ASCII decimal digit (`\d`). -/
def isDigitCh (c : Char) : Bool :=
  '0' ≤ c && c ≤ '9'

/-- ASCII letter (`[A-Za-z]`). -/
def isAlphaCh (c : Char) : Bool :=
  ('A' ≤ c && c ≤ 'Z') || ('a' ≤ c && c ≤ 'z')

/-- ASCII word character (`\w`): letter, digit or underscore. -/
def isWordCh (c : Char) : Bool :=
  isAlphaCh c || isDigitCh c || c = '_'

/-- Python `str.upper` on a single ASCII character. -/
def upCh (c : Char) : Char :=
  if 'a' ≤ c && c ≤ 'z' then Char.ofNat (c.toNat - 32) else c

/-- Python `str.lower` on a single ASCII character. -/
def lowCh (c : Char) : Char :=
  if 'A' ≤ c && c ≤ 'Z' then Char.ofNat (c.toNat + 32) else c

/-- Python `str.upper`. -/
def pyUpper (s : Str) : Str := s.map upCh

/-- Python `str.lower`. -/
def pyLower (s : Str) : Str := s.map lowCh

/-- Python `str.strip()`: drop leading and trailing whitespace. -/
def pyStrip (s : Str) : Str :=
  ((s.dropWhile isSpc).reverse.dropWhile isSpc).reverse

/-- Worker for `splitWs`: `cur` holds the current word, reversed. -/
def splitWsGo (cur : Str) : Str → List Str
  | [] => if cur = [] then [] else [cur.reverse]
  | c :: rest =>
    if isSpc c then
      if cur = [] then splitWsGo [] rest else cur.reverse :: splitWsGo [] rest
    else splitWsGo (c :: cur) rest

/-- Split a string on runs of whitespace, discarding empty pieces
(Python `str.split()`). -/
def splitWs (s : Str) : List Str := splitWsGo [] s

/-- Join words with single spaces (`" ".join`). -/
def joinWs : List Str → Str
  | [] => []
  | [w] => w
  | w :: ws => w ++ ' ' :: joinWs ws

/-- Digits to a natural number (`int` on an all-digit string). -/
def digitsToNat (ds : List Char) : ℕ :=
  ds.foldl (fun n c => 10 * n + (c.toNat - 48)) 0

/-- Python `int(s)` restricted to an optional sign followed by digits
(whitespace stripped first); `none` models `ValueError`. -/
def pyInt (s : Str) : Option ℤ :=
  let t := pyStrip s
  match t with
  | '+' :: r => if r ≠ [] && r.all isDigitCh then some (digitsToNat r) else none
  | '-' :: r => if r ≠ [] && r.all isDigitCh then some (-(digitsToNat r : ℤ)) else none
  | r => if r ≠ [] && r.all isDigitCh then some (digitsToNat r) else none

/-- Addition on ℚ in a kernel-reducible form (the library's `Rat.add`
is `@[irreducible]`); proven equal to `+` in `qAdd_eq` below. -/
def qAdd (a b : ℚ) : ℚ := Rat.divInt (a.num * b.den + b.num * a.den) (a.den * b.den)

/-- Subtraction on ℚ in a kernel-reducible form; equals `-` by
`qSub_eq`. -/
def qSub (a b : ℚ) : ℚ := qAdd a (-b)

/-- Multiplication on ℚ in a kernel-reducible form; equals `*` by
`qMul_eq`. -/
def qMul (a b : ℚ) : ℚ := Rat.divInt (a.num * b.num) (a.den * b.den)

/-- Division on ℚ in a kernel-reducible form (0 when dividing by 0,
as in Lean); equals `/` by `qDiv_eq`. -/
def qDiv (a b : ℚ) : ℚ := Rat.divInt (a.num * b.den) (a.den * b.num)

/-- Absolute value on ℚ in a kernel-reducible form; equals `|·|` by
`qAbs_eq`. -/
def qAbs (a : ℚ) : ℚ := if a < 0 then -a else a

/-- `10 ^ n` as a reducible rational; equals the monoid power by
`pow10_eq`. -/
def pow10 (n : ℕ) : ℚ := Rat.divInt ((10 : ℤ) ^ n) 1

/-- Exponent part of a float literal: `[eE][+-]?digits` already split off;
here `r` is what follows the mantissa. -/
def parseExpPart (r : Str) (m : ℚ) : Option ℚ :=
  match r with
  | [] => some m
  | e :: r2 =>
    if e = 'e' || e = 'E' then
      let core : Str → Option ℕ := fun ds =>
        if ds ≠ [] && ds.all isDigitCh then some (digitsToNat ds) else none
      match r2 with
      | '+' :: r3 => (core r3).map (fun k => qMul m (pow10 k))
      | '-' :: r3 => (core r3).map (fun k => qDiv m (pow10 k))
      | r3 => (core r3).map (fun k => qMul m (pow10 k))
    else none

/-- Unsigned float literal: `digits [. digits]` or `. digits`, with an
optional exponent. -/
def parseUFloat (s : Str) : Option ℚ :=
  let ip := s.takeWhile isDigitCh
  let r1 := s.dropWhile isDigitCh
  match r1 with
  | '.' :: r2 =>
    let fp := r2.takeWhile isDigitCh
    let r3 := r2.dropWhile isDigitCh
    if ip = [] && fp = [] then none
    else parseExpPart r3 (qAdd (digitsToNat ip : ℚ) (qDiv (digitsToNat fp : ℚ) (pow10 fp.length)))
  | _ => if ip = [] then none else parseExpPart r1 (digitsToNat ip : ℚ)

/-- Python `float(s)` on a string: strip whitespace, optional sign,
decimal literal with optional exponent.  `none` models `ValueError`.
(`inf`/`nan` literals are outside the rational model and not accepted.) -/
def pyFloatStr (s : Str) : Option ℚ :=
  let t := pyStrip s
  match t with
  | '+' :: r => parseUFloat r
  | '-' :: r => (parseUFloat r).map Neg.neg
  | r => parseUFloat r

/-- Round half to even on ℚ, the tie-breaking used by Python `round`.
(`Rat.floor` is the library floor `⌊·⌋`, see `rat_floor_eq`.) -/
def rndHE (x : ℚ) : ℤ :=
  let f := Rat.floor x
  let frac := qSub x (f : ℚ)
  if frac < Rat.divInt 1 2 then f
  else if Rat.divInt 1 2 < frac then f + 1
  else if f % 2 = 0 then f else f + 1

/-- Python `round(x, nd)` idealised over exact rationals. -/
def pyRound (x : ℚ) (nd : ℕ) : ℚ :=
  qDiv (rndHE (qMul x (pow10 nd)) : ℚ) (pow10 nd)

/-- A spreadsheet cell value: Python `None`, a number, a string, or a
datetime (year, month, day — openpyxl deserialises date cells). -/
inductive CellVal where
  | pynone : CellVal
  | num : ℚ → CellVal
  | str : Str → CellVal
  | date : ℕ → ℕ → ℕ → CellVal
deriving DecidableEq

/-- Python truthiness of a cell value (`if not value: ...`). -/
def pyTruthy : CellVal → Bool
  | .pynone => false
  | .num q => q ≠ 0
  | .str s => s ≠ []
  | .date _ _ _ => true

/-- Python truthiness of an `Optional[float]` local variable. -/
def otruthy : Option ℚ → Bool
  | none => false
  | some q => q ≠ 0

/-- The string cleaning step of `_to_number`:
`value.replace(",", "").replace("£", "").replace(" ", "").strip()`. -/
def cleanNumStr (s : Str) : Str :=
  pyStrip (s.filter (fun c => c ≠ ',' && c ≠ '£' && c ≠ ' '))

/-- `comps_cleaner._to_number`: convert a cell value to a number, or
`None` if not numeric / zero.  Strings are cleaned of commas, `£` and
spaces before `float(...)`. -/
def toNumber : CellVal → Option ℚ
  | .pynone => none
  | .num q => if q = 0 then none else some q
  | .str s =>
    if cleanNumStr s = [] then none
    else
      match pyFloatStr (cleanNumStr s) with
      | some r => if r = 0 then none else some r
      | none => none
  | .date _ _ _ => none

/-- `float(value)` applied to a raw cell value; `none` models
`TypeError`/`ValueError` (dates and `None` are not convertible). -/
def pyFloatCell : CellVal → Option ℚ
  | .pynone => none
  | .num q => some q
  | .str s => pyFloatStr s
  | .date _ _ _ => none

/-- `float(value) if value else None` — the guarded coercion used when
reading rent cells. -/
def floatIfTruthy (v : CellVal) : Option ℚ :=
  if pyTruthy v then pyFloatCell v else none

/-- Split on a separator character, keeping empty pieces
(Python `str.split("/")`); `cur` holds the current piece, reversed. -/
def splitOnGo (sep : Char) (cur : Str) : Str → List Str
  | [] => [cur.reverse]
  | c :: rest =>
    if c = sep then cur.reverse :: splitOnGo sep [] rest
    else splitOnGo sep (c :: cur) rest

/-- Python `s.split(sep)` for a one-character separator. -/
def splitOnChar (sep : Char) (s : Str) : List Str := splitOnGo sep [] s

/-- Decimal rendering of a natural number (Python `f"{n}"`). -/
def natToStr (n : ℕ) : Str := Nat.toDigits 10 n

/-- `comps_cleaner` constants. -/
def MAX_RETRIES : ℕ := 3

/-- Base delay in seconds for the lock-retry backoff. -/
def RETRY_DELAY : ℕ := 5

/-- Acquisition cost multiplier (`ACQUISITION_COST_FACTOR = 1.068`). -/
def ACQ_FACTOR : ℚ := Rat.divInt 1068 1000

/-- Anchored match of `^(\d{4})\s*Q([1-4])$`, returning the two groups
(year digits, quarter digit). -/
def parseQNewFull (s : Str) : Option (Str × Char) :=
  match s with
  | a :: b :: c :: d :: rest =>
    if [a, b, c, d].all isDigitCh then
      match rest.dropWhile isSpc with
      | [q, n] =>
        if (q = 'Q' || q = 'q') && ('1' ≤ n && n ≤ '4') then some ([a, b, c, d], n)
        else none
      | _ => none
    else none
  | _ => none

/-- Anchored match of the old quarter format `Q([1-4])`, optional spaces,
an optional `-` or `/` separator, optional spaces, then `(\d{4})` and the
end of the string; returns the two groups (quarter digit, year digits). -/
def parseQOldFull (s : Str) : Option (Char × Str) :=
  match s with
  | q :: n :: rest =>
    if (q = 'Q' || q = 'q') && ('1' ≤ n && n ≤ '4') then
      let r1 := rest.dropWhile isSpc
      let r2 :=
        match r1 with
        | c :: r2' => if c = '-' || c = '/' then r2'.dropWhile isSpc else r1
        | [] => r1
      match r2 with
      | [a, b, c, d] => if [a, b, c, d].all isDigitCh then some (n, [a, b, c, d]) else none
      | _ => none
    else none
  | _ => none

/-- `comps_cleaner._derive_quarter_from_cell`: derive a quarter string
from a date/quarter cell value. -/
def deriveQuarterFromCell : CellVal → Option Str
  | .pynone => none
  | .date y m _ => some (natToStr y ++ ' ' :: 'Q' :: natToStr ((m - 1) / 3 + 1))
  | .num _ => none
  | .str s0 =>
    let s := pyStrip s0
    if s = [] then none
    else
      match parseQNewFull s with
      | some (ys, qc) => some (ys ++ ' ' :: 'Q' :: [qc])
      | none =>
        match parseQOldFull s with
        | some (qc, ys) => some (ys ++ ' ' :: 'Q' :: [qc])
        | none =>
          match splitOnChar '/' s with
          | [_, p2, p3] =>
            match pyInt p2, pyInt p3 with
            | some m, some y =>
              if 1 ≤ m && m ≤ 12 && 2000 ≤ y && y ≤ 2100 then
                some (natToStr y.toNat ++ ' ' :: 'Q' :: natToStr ((m.toNat - 1) / 3 + 1))
              else none
            | _, _ => none
          | [p1, p2] =>
            match pyInt p1, pyInt p2 with
            | some m, some y =>
              if 1 ≤ m && m ≤ 12 && 2000 ≤ y && y ≤ 2100 then
                some (natToStr y.toNat ++ ' ' :: 'Q' :: natToStr ((m.toNat - 1) / 3 + 1))
              else none
            | _, _ => none
          | _ => none

/-- The derivation-relevant cells of one row of the investment comps
sheet (columns B, C, H, I, J, L, M, O). -/
structure InvRowCells where
  date : CellVal
  quarter : CellVal
  area : CellVal
  rent_pa : CellVal
  rent_psf : CellVal
  price : CellVal
  yield_niy : CellVal
  capval : CellVal
deriving DecidableEq

/-- One pass of `comps_cleaner.clean_investment_comps` over a single
row: the six gap-filling rules in cascade order, with local variables
threaded exactly as in the Python loop body. -/
def cleanInvRow (r : InvRowCells) : InvRowCells :=
  let area0 := toNumber r.area
  let rentPa0 := toNumber r.rent_pa
  let rentPsf0 := toNumber r.rent_psf
  let price0 := toNumber r.price
  let yld0 := toNumber r.yield_niy
  let capval0 := toNumber r.capval
  -- Rule 1: Quarter from Date
  let qcell :=
    if !pyTruthy r.quarter && pyTruthy r.date then
      match deriveQuarterFromCell r.date with
      | some d => if d ≠ [] then CellVal.str d else r.quarter
      | none => r.quarter
    else r.quarter
  -- Rule 2: Rent PA from Price & Yield
  let fire2 := !otruthy rentPa0 && otruthy price0 && otruthy yld0
  let v2 := pyRound (qMul (qMul (price0.getD 0) ACQ_FACTOR) (yld0.getD 0)) 2
  let rentPa1 : Option ℚ := if fire2 then some v2 else rentPa0
  let paCell1 := if fire2 then CellVal.num v2 else r.rent_pa
  -- Rule 3: Rent PA from PSF & Area
  let fire3 := !otruthy rentPa1 && otruthy rentPsf0 && otruthy area0
  let v3 := pyRound (qMul (rentPsf0.getD 0) (area0.getD 0)) 2
  let rentPa2 : Option ℚ := if fire3 then some v3 else rentPa1
  let paCell2 := if fire3 then CellVal.num v3 else paCell1
  -- Rule 4: Rent PSF from PA & Area
  let fire4 := !otruthy rentPsf0 && otruthy rentPa2 && otruthy area0
  let v4 := pyRound (qDiv (rentPa2.getD 0) (area0.getD 0)) 2
  let rentPsf1 : Option ℚ := if fire4 then some v4 else rentPsf0
  let psfCell1 := if fire4 then CellVal.num v4 else r.rent_psf
  -- Rule 5: Area from Rent PA & PSF
  let fire5 := !otruthy area0 && otruthy rentPa2 && otruthy rentPsf1
  let v5 := pyRound (qDiv (rentPa2.getD 0) (rentPsf1.getD 0)) 0
  let area1 : Option ℚ := if fire5 then some v5 else area0
  let areaCell1 := if fire5 then CellVal.num v5 else r.area
  -- Rule 6: Cap Val PSF from Price & Area
  let fire6 := !otruthy capval0 && otruthy price0 && otruthy area1
  let v6 := pyRound (qDiv (price0.getD 0) (area1.getD 0)) 2
  let capCell1 := if fire6 then CellVal.num v6 else r.capval
  ⟨r.date, qcell, areaCell1, paCell2, psfCell1, r.price, r.yield_niy, capCell1⟩

/-- Identify `some 0` with `None` (what a round-trip through a cell and
`_to_number` does to a stored zero). -/
def normOpt : Option ℚ → Option ℚ
  | none => none
  | some q => if q = 0 then none else some q

/-- Rule 1 of the cascade in isolation: Quarter from Date. -/
def rule1Quarter (quarter date : CellVal) : CellVal :=
  if !pyTruthy quarter && pyTruthy date then
    match deriveQuarterFromCell date with
    | some d => if d ≠ [] then CellVal.str d else quarter
    | none => quarter
  else quarter

/-- Rule 2 trigger, as a function of the row's numeric locals. -/
def fire2F (pa pr y : Option ℚ) : Bool :=
  !otruthy pa && otruthy pr && otruthy y

/-- Rule 2 value: rent p.a. from price and yield. -/
def v2F (pr y : Option ℚ) : ℚ :=
  pyRound (qMul (qMul (pr.getD 0) ACQ_FACTOR) (y.getD 0)) 2

/-- The `rent_pa` local after rule 2. -/
def pa1F (pa pr y : Option ℚ) : Option ℚ :=
  if fire2F pa pr y then some (v2F pr y) else pa

/-- Rule 3 trigger. -/
def fire3F (a pa ps pr y : Option ℚ) : Bool :=
  !otruthy (pa1F pa pr y) && otruthy ps && otruthy a

/-- Rule 3 value: rent p.a. from rent psf and area. -/
def v3F (a ps : Option ℚ) : ℚ :=
  pyRound (qMul (ps.getD 0) (a.getD 0)) 2

/-- The `rent_pa` local after rule 3. -/
def pa2F (a pa ps pr y : Option ℚ) : Option ℚ :=
  if fire3F a pa ps pr y then some (v3F a ps) else pa1F pa pr y

/-- Rule 4 trigger. -/
def fire4F (a pa ps pr y : Option ℚ) : Bool :=
  !otruthy ps && otruthy (pa2F a pa ps pr y) && otruthy a

/-- Rule 4 value: rent psf from rent p.a. and area. -/
def v4F (a pa ps pr y : Option ℚ) : ℚ :=
  pyRound (qDiv ((pa2F a pa ps pr y).getD 0) (a.getD 0)) 2

/-- The `rent_psf` local after rule 4. -/
def ps1F (a pa ps pr y : Option ℚ) : Option ℚ :=
  if fire4F a pa ps pr y then some (v4F a pa ps pr y) else ps

/-- Rule 5 trigger. -/
def fire5F (a pa ps pr y : Option ℚ) : Bool :=
  !otruthy a && otruthy (pa2F a pa ps pr y) && otruthy (ps1F a pa ps pr y)

/-- Rule 5 value: area from rent p.a. and rent psf. -/
def v5F (a pa ps pr y : Option ℚ) : ℚ :=
  pyRound (qDiv ((pa2F a pa ps pr y).getD 0) ((ps1F a pa ps pr y).getD 0)) 0

/-- The `area` local after rule 5. -/
def a1F (a pa ps pr y : Option ℚ) : Option ℚ :=
  if fire5F a pa ps pr y then some (v5F a pa ps pr y) else a

/-- Rule 6 trigger. -/
def fire6F (a pa ps pr y cv : Option ℚ) : Bool :=
  !otruthy cv && otruthy pr && otruthy (a1F a pa ps pr y)

/-- Rule 6 value: capital value psf from price and area. -/
def v6F (a pa ps pr y : Option ℚ) : ℚ :=
  pyRound (qDiv (pr.getD 0) ((a1F a pa ps pr y).getD 0)) 2

/-- The `capval` local after rule 6. -/
def cv1F (a pa ps pr y cv : Option ℚ) : Option ℚ :=
  if fire6F a pa ps pr y cv then some (v6F a pa ps pr y) else cv

/-- The rent-p.a. cell written by the cascade. -/
def paCellF (rpa : CellVal) (a pa ps pr y : Option ℚ) : CellVal :=
  if fire3F a pa ps pr y then .num (v3F a ps)
  else if fire2F pa pr y then .num (v2F pr y)
  else rpa

/-- The rent-psf cell written by the cascade. -/
def psCellF (rps : CellVal) (a pa ps pr y : Option ℚ) : CellVal :=
  if fire4F a pa ps pr y then .num (v4F a pa ps pr y) else rps

/-- The area cell written by the cascade. -/
def aCellF (rarea : CellVal) (a pa ps pr y : Option ℚ) : CellVal :=
  if fire5F a pa ps pr y then .num (v5F a pa ps pr y) else rarea

/-- The capital-value cell written by the cascade. -/
def cvCellF (rcv : CellVal) (a pa ps pr y cv : Option ℚ) : CellVal :=
  if fire6F a pa ps pr y cv then .num (v6F a pa ps pr y) else rcv

/-- A row of the investment comps sheet as seen by the cleaner: the
address cell (column F, used as the skip test) plus the derivation
cells. -/
structure InvSheetRowC where
  addr : CellVal
  cells : InvRowCells
deriving DecidableEq

/-- The cleaner's whole-store pass: rows with a blank address cell are
skipped, all others get the cascade applied. -/
def cleanPass (rows : List InvSheetRowC) : List InvSheetRowC :=
  rows.map (fun r => if pyTruthy r.addr then ⟨r.addr, cleanInvRow r.cells⟩ else r)

/-- Blankness test used on both sides of the merge: Python `None`, or a
string that strips to empty.  (`existing is not None and
str(existing).strip() != ""` skips the write; numbers and dates always
render to non-blank text.) -/
def cellBlank : CellVal → Bool
  | .pynone => true
  | .num _ => false
  | .str s => pyStrip s = []
  | .date _ _ _ => false

/-- Write one cell of the row (`ws.cell(row=row, column=col, value=v)`). -/
def updRow (r : ℕ → CellVal) (c0 : ℕ) (v : CellVal) : ℕ → CellVal :=
  fun c => if c = c0 then v else r c

/-- One iteration of the `_merge_into_row` loop over the field map:
skip a blank incoming value, skip a non-blank existing cell, otherwise
write the value and count the fill. -/
def mergeStep (acc : (ℕ → CellVal) × ℕ) (p : ℕ × CellVal) : (ℕ → CellVal) × ℕ :=
  if cellBlank p.2 then acc
  else if !cellBlank (acc.1 p.1) then acc
  else (updRow acc.1 p.1 p.2, acc.2 + 1)

/-- `_merge_into_row` (both writers share this loop): fold the field
map over the kept row, returning the updated row and the fill count. -/
def mergeIntoRow (row : ℕ → CellVal) (fields : List (ℕ × CellVal)) : (ℕ → CellVal) × ℕ :=
  fields.foldl mergeStep (row, 0)

/-- An `InvestmentComp` as used by `InvestmentCompsWriter` (floats as
exact rationals, optional strings as `Option Str`). -/
structure InvComp where
  town : Str
  address : Str
  units : Option ℚ
  area_sqft : Option ℚ
  rent_pa : Option ℚ
  rent_psf : Option ℚ
  awultc : Option ℚ
  price : Option ℚ
  yield_niy : Option ℚ
  reversionary_yield : Option ℚ
  capval_psf : Option ℚ
  vendor : Option Str
  purchaser : Option Str
  comment : Option Str
  date : Option Str
  quarter : Option Str
  style : Option Str
  source_deal : Option Str
  source_file_path : Option Str
deriving DecidableEq

/-- Lift an optional string field to a cell value. -/
def cellOfStrOpt : Option Str → CellVal
  | none => .pynone
  | some s => .str s

/-- Lift an optional numeric field to a cell value. -/
def cellOfNumOpt : Option ℚ → CellVal
  | none => .pynone
  | some q => .num q

/-- The `field_map` built by `InvestmentCompsWriter._merge_into_row`
(column index → comp value, yields divided by 100 for storage). -/
def invFieldMap (c : InvComp) : List (ℕ × CellVal) :=
  [(2, cellOfStrOpt c.date),
   (3, cellOfStrOpt c.quarter),
   (4, .str c.town),
   (5, cellOfStrOpt c.style),
   (6, .str c.address),
   (7, cellOfNumOpt c.units),
   (8, cellOfNumOpt c.area_sqft),
   (9, cellOfNumOpt c.rent_pa),
   (10, cellOfNumOpt c.rent_psf),
   (11, cellOfNumOpt c.awultc),
   (12, cellOfNumOpt c.price),
   (13, cellOfNumOpt (c.yield_niy.map (fun q => qDiv q 100))),
   (14, cellOfNumOpt (c.reversionary_yield.map (fun q => qDiv q 100))),
   (15, cellOfNumOpt c.capval_psf),
   (16, cellOfStrOpt c.vendor),
   (17, cellOfStrOpt c.purchaser),
   (18, cellOfStrOpt c.comment),
   (19, cellOfStrOpt c.source_deal),
   (20, cellOfStrOpt c.source_file_path)]

/-- `InvestmentCompsWriter._merge_into_row`. -/
def mergeInvIntoRow (row : ℕ → CellVal) (c : InvComp) : (ℕ → CellVal) × ℕ :=
  mergeIntoRow row (invFieldMap c)

/-- An `OccupationalComp` as used by `OccupationalCompsWriter`. -/
structure OccComp where
  source_deal : Str
  tenant_name : Str
  unit_name : Option Str
  address : Str
  town : Str
  postcode : Option Str
  size_sqft : Option ℚ
  rent_pa : Option ℚ
  rent_psf : Option ℚ
  lease_start : Option Str
  lease_expiry : Option Str
  break_date : Option Str
  rent_review_date : Option Str
  lease_term_years : Option ℚ
  comp_date : Option Str
  notes : Option Str
deriving DecidableEq

/-- The `field_map` built by `OccupationalCompsWriter._merge_into_row`
(columns C through Q of the occupational comps sheet). -/
def occFieldMap (c : OccComp) : List (ℕ × CellVal) :=
  [(3, .str c.tenant_name),
   (4, cellOfStrOpt c.unit_name),
   (5, .str c.address),
   (6, .str c.town),
   (7, cellOfStrOpt c.postcode),
   (8, cellOfNumOpt c.size_sqft),
   (9, cellOfNumOpt c.rent_pa),
   (10, cellOfNumOpt c.rent_psf),
   (11, cellOfStrOpt c.lease_start),
   (12, cellOfStrOpt c.lease_expiry),
   (13, cellOfStrOpt c.break_date),
   (14, cellOfStrOpt c.rent_review_date),
   (15, cellOfNumOpt c.lease_term_years),
   (16, cellOfStrOpt c.comp_date),
   (17, cellOfStrOpt c.notes)]

/-- `OccupationalCompsWriter._merge_into_row`. -/
def mergeOccIntoRow (row : ℕ → CellVal) (c : OccComp) : (ℕ → CellVal) × ℕ :=
  mergeIntoRow row (occFieldMap c)

/-- Outcome of a single body execution of the `_retry_write` loop:
load/mutate/save succeeded (with `write_fn`'s change flag), raised
`PermissionError` (file locked), or raised any other exception. -/
inductive AttemptResult where
  | ok : Bool → AttemptResult
  | lockErr : AttemptResult
  | ioErr : AttemptResult
deriving DecidableEq

/-- Observable trace of `_retry_write`: the returned Bool, the sleeps
performed (seconds, in order), and how many attempts ran. -/
structure RetryTrace where
  result : Bool
  sleeps : List ℕ
  attempts : ℕ
deriving DecidableEq

/-- The `for attempt in range(max_retries)` loop of `_retry_write`;
`remaining` counts loop iterations left, `i` is the attempt index. -/
def retryWriteGo (outcomes : ℕ → AttemptResult) : ℕ → ℕ → RetryTrace
  | 0, _ => ⟨false, [], 0⟩
  | remaining + 1, i =>
    match outcomes i with
    | .ok c => ⟨c, [], 1⟩
    | .ioErr => ⟨false, [], 1⟩
    | .lockErr =>
      if remaining = 0 then ⟨false, [], 1⟩
      else
        let t := retryWriteGo outcomes remaining (i + 1)
        ⟨t.result, RETRY_DELAY * 2 ^ i :: t.sleeps, t.attempts + 1⟩

/-- `excel_writer._retry_write` with the default retry budget, as a
function of the per-attempt outcomes. -/
def retryWrite (outcomes : ℕ → AttemptResult) : RetryTrace :=
  retryWriteGo outcomes MAX_RETRIES 0

/-- Punctuation to space: `re.sub(r"[^\w\s]", " ", ·)`. -/
def puncToSpace (s : Str) : Str :=
  s.map (fun c => if isWordCh c || isSpc c then c else ' ')

/-- `excel_writer._normalize_name`: lowercase, strip, punctuation to
spaces, collapse whitespace runs to single spaces, strip.  The final
collapse-and-strip is rendered as split-then-join. -/
def normalizeName (s : Str) : Str :=
  joinWs (splitWs (puncToSpace (pyStrip (pyLower s))))

/-- `excel_writer._STOP_WORDS`. -/
def STOP_WORDS : List Str :=
  ["the", "a", "an", "and", "of", "at", "in", "on", "for",
   "site", "park", "estate", "industrial", "trading", "business",
   "investment", "fund", "intro", "introduction", "portfolio",
   "centre", "center", "works", "unit", "units", "road", "street",
   "lane", "way", "drive", "close", "ltd", "limited", "plc",
   "son", "sons",
   "rd", "st", "ave", "ct", "pl", "sq",
   "north", "south", "east", "west"].map String.toList

/-- `excel_writer._significant_words`: significant (non-stop,
multi-character) words of a normalised name, as a set. -/
def significantWords (s : Str) : Finset Str :=
  ((splitWs (normalizeName s)).filter
    (fun w => decide (w ∉ STOP_WORDS) && decide (w.length > 1))).toFinset

/-- `a` is a literal prefix of `b` (helper for substring search). -/
def headMatch : Str → Str → Bool
  | [], _ => true
  | _ :: _, [] => false
  | c :: cs, d :: ds => c = d && headMatch cs ds

/-- Python `a in b` substring containment. -/
def hasSub (a : Str) : Str → Bool
  | [] => a.isEmpty
  | d :: ds => headMatch a (d :: ds) || hasSub a ds

/-- `InvestmentCompsWriter._is_price_close` (tolerance 5%): false when
either price is falsy.  (A zero average — equal and opposite nonzero
prices — raises `ZeroDivisionError` in Python; here division by zero
yields 0 and the case is never relied upon.) -/
def isPriceClose (pa pb : Option ℚ) : Bool :=
  if !otruthy pa || !otruthy pb then false
  else
    let a := pa.getD 0
    let b := pb.getD 0
    let avg := qDiv (qAdd a b) 2
    decide (qDiv (qAbs (qSub a b)) avg ≤ Rat.divInt 5 100)

/-- `InvestmentCompsWriter._is_address_close`, parameterised by the
`difflib` similarity `sim`. -/
def isAddressClose (sim : Str → Str → ℚ) (addrA addrB : Str) : Bool :=
  let a := normalizeName addrA
  let b := normalizeName addrB
  if a = [] || b = [] then false
  else if a = b then true
  else
    let shorter := if a.length ≤ b.length then a else b
    if (splitWs shorter).length ≥ 2 && (hasSub a b || hasSub b a) then true
    else
      let wordsA := significantWords addrA
      let wordsB := significantWords addrB
      let overlap := wordsA ∩ wordsB
      let shorterLen := min wordsA.card wordsB.card
      if wordsA.card ≠ 0 && wordsB.card ≠ 0 && overlap.card ≥ 2 &&
          decide (qDiv (overlap.card : ℚ) (shorterLen : ℚ) ≥ Rat.divInt 6 10) then true
      else decide (sim a b ≥ Rat.divInt 85 100)

/-- `InvestmentCompsWriter._parse_quarter`: prefix match of
`(\d{4})\s*Q([1-4])` or `Q([1-4])\s*(\d{4})` on the stripped string,
producing the ordinal `year*4 + quarter`. -/
def parseQuarterOrd (q : Str) : Option ℕ :=
  let s := pyStrip q
  match s with
  | a :: b :: c :: d :: rest =>
    if [a, b, c, d].all isDigitCh then
      match rest.dropWhile isSpc with
      | qc :: n :: _ =>
        if (qc = 'Q' || qc = 'q') && ('1' ≤ n && n ≤ '4') then
          some (digitsToNat [a, b, c, d] * 4 + (n.toNat - 48))
        else none
      | _ => none
    else
      match s with
      | qc :: n :: rest2 =>
        if (qc = 'Q' || qc = 'q') && ('1' ≤ n && n ≤ '4') then
          match rest2.dropWhile isSpc with
          | a2 :: b2 :: c2 :: d2 :: _ =>
            if [a2, b2, c2, d2].all isDigitCh then
              some (digitsToNat [a2, b2, c2, d2] * 4 + (n.toNat - 48))
            else none
          | _ => none
        else none
      | _ => none
  | qc :: n :: rest2 =>
    if (qc = 'Q' || qc = 'q') && ('1' ≤ n && n ≤ '4') then
      match rest2.dropWhile isSpc with
      | a2 :: b2 :: c2 :: d2 :: _ =>
        if [a2, b2, c2, d2].all isDigitCh then
          some (digitsToNat [a2, b2, c2, d2] * 4 + (n.toNat - 48))
        else none
      | _ => none
    else none
  | _ => none

/-- The quarter proximity rejection (`abs(ord_a - ord_b) > 1` when both
quarters parse; skipped when either is missing). -/
def quarterFar (a b : Option ℕ) : Bool :=
  match a, b with
  | some x, some y => decide ((if x ≥ y then x - y else y - x) > 1)
  | _, _ => false

/-- A row of the investment comps sheet as read by
`_find_duplicate_row`: address and quarter cells are text, the price
cell is an arbitrary value. -/
structure InvSheetRow where
  addr : Str
  price : CellVal
  quarter : Str
deriving DecidableEq

/-- Scan loop of `InvestmentCompsWriter._find_duplicate_row`; returns
the index of the first matching row. -/
def findDupInvGo (sim : Str → Str → ℚ) (compPrice : ℚ) (cOrd : Option ℕ)
    (compAddr : Str) : List InvSheetRow → ℕ → Option ℕ
  | [], _ => none
  | r :: rest, i =>
    let next := findDupInvGo sim compPrice cOrd compAddr rest (i + 1)
    let existingAddr := pyStrip r.addr
    if existingAddr = [] then next
    else
      match pyFloatCell r.price with
      | none => next
      | some p =>
        if !isPriceClose (some compPrice) (some p) then next
        else
          let eOrd := parseQuarterOrd (pyStrip r.quarter)
          if quarterFar cOrd eOrd then next
          else if !isAddressClose sim compAddr existingAddr then next
          else some i

/-- `InvestmentCompsWriter._find_duplicate_row`: no price on the comp
means no match; otherwise scan all rows. -/
def findDupInv (sim : Str → Str → ℚ) (rows : List InvSheetRow) (comp : InvComp) :
    Option ℕ :=
  if !otruthy comp.price then none
  else
    findDupInvGo sim (comp.price.getD 0) (parseQuarterOrd (comp.quarter.getD []))
      comp.address rows 0

/-- `OccupationalCompsWriter._normalise_tenant` /
`find_occ_dupes.normalise_tenant`: normalise and drop company-suffix
words (the word-bounded `re.sub` deletes exactly whole words of the
normalised, single-spaced string; re-collapse and strip follow). -/
def normaliseTenant (s : Str) : Str :=
  joinWs ((splitWs (normalizeName s)).filter
    (fun w => decide (w ∉ (["ltd", "limited", "plc", "inc", "llp", "llc"].map String.toList))))

/-- Leading-zero stripping `re.sub(r"\b0+(\d)", r"\1", ·)` restricted
to one word of a normalised string (the only boundary is the word
start). -/
def stripLeadZeros (w : Str) : Str :=
  let z := (w.takeWhile (fun c => c = '0')).length
  if z = 0 then w
  else
    match w.drop z with
    | [] => if z ≥ 2 then ['0'] else w
    | c :: _ => if isDigitCh c then w.drop z
                else if z ≥ 2 then '0' :: w.drop z else w

/-- `OccupationalCompsWriter._normalise_unit` /
`find_occ_dupes.normalise_unit`: normalise, strip leading zeros in
words, drop `unit`/`plot` words, strip. -/
def normaliseUnit (s : Str) : Str :=
  joinWs (((splitWs (normalizeName s)).map stripLeadZeros).filter
    (fun w => w ≠ "unit".toList && w ≠ "plot".toList))

/-- `OccupationalCompsWriter._is_rent_close` /
`find_occ_dupes.is_rent_close` (tolerance 0.5%, zero-average guard). -/
def isRentClose (ra rb : Option ℚ) : Bool :=
  if !otruthy ra || !otruthy rb then false
  else
    let a := ra.getD 0
    let b := rb.getD 0
    let avg := qDiv (qAdd a b) 2
    if avg = 0 then false
    else decide (qDiv (qAbs (qSub a b)) avg ≤ Rat.divInt 5 1000)

/-- The `_rents_match` helper of the occ-comp writer scan: rent PA
within tolerance, falling back to rent PSF when both PAs are `None`. -/
def rentsMatchW (compRent compPsf eRent ePsf : Option ℚ) : Bool :=
  isRentClose compRent eRent ||
    (compRent = none && eRent = none && isRentClose compPsf ePsf)

/-- A row of the occupational comps sheet as read by the writer's
`_find_duplicate_row`: source cell raw, tenant/unit cells as text,
rent cells raw. -/
structure OccSheetRow where
  source : CellVal
  tenant : Str
  unit : Str
  rent_pa : CellVal
  rent_psf : CellVal
deriving DecidableEq

/-- Scan loop of `OccupationalCompsWriter._find_duplicate_row`
(phases 1–3 per row, first hit wins). -/
def findDupOccGo (sim : Str → Str → ℚ) (ct cu : Str) (crent cpsf : Option ℚ) :
    List OccSheetRow → ℕ → Option ℕ
  | [], _ => none
  | r :: rest, i =>
    let next := findDupOccGo sim ct cu crent cpsf rest (i + 1)
    if !pyTruthy r.source then next
    else
      let et := normaliseTenant (pyStrip r.tenant)
      if et = "vacant".toList || et = "vacant under offer".toList then next
      else
        let er := floatIfTruthy r.rent_pa
        let ep := floatIfTruthy r.rent_psf
        let rm := rentsMatchW crent cpsf er ep
        if ct ≠ [] && et = ct && rm then some i
        else
          let eu := normaliseUnit (pyStrip r.unit)
          if cu ≠ [] && eu ≠ [] && cu = eu && rm then some i
          else if ct ≠ [] && et ≠ [] && rm && decide (sim ct et ≥ Rat.divInt 9 10) then some i
          else next

/-- `OccupationalCompsWriter._find_duplicate_row`: comps whose
normalised tenant is exactly `vacant` / `vacant under offer` are
skipped, then the sheet is scanned. -/
def findDupOcc (sim : Str → Str → ℚ) (rows : List OccSheetRow) (comp : OccComp) :
    Option ℕ :=
  let ct := normaliseTenant comp.tenant_name
  let cu := normaliseUnit (comp.unit_name.getD [])
  if ct = "vacant".toList || ct = "vacant under offer".toList then none
  else findDupOccGo sim ct cu comp.rent_pa comp.rent_psf rows 0

/-- `re.sub(r"\s+", "", ·)`: delete all whitespace. -/
def removeWs (s : Str) : Str := s.filter (fun c => !isSpc c)

/-- Tail of the UK postcode pattern: `\s*\d[A-Z]{2}` as a prefix. -/
def matchUKTail (l : Str) : Bool :=
  match l.dropWhile isSpc with
  | d :: x :: y :: _ => isDigitCh d && isAlphaCh x && isAlphaCh y
  | _ => false

/-- `[A-Z\d]?` then the tail, with backtracking on the optional
character. -/
def matchUKAfterDigit (l : Str) : Bool :=
  (match l with
   | c :: rest => (isAlphaCh c || isDigitCh c) && matchUKTail rest
   | [] => false) || matchUKTail l

/-- `\d[A-Z\d]?\s*\d[A-Z]{2}` as a prefix. -/
def matchUKAfterLetters (l : Str) : Bool :=
  match l with
  | d :: rest => isDigitCh d && matchUKAfterDigit rest
  | [] => false

/-- `_UK_POSTCODE_RE.match` (case-insensitive, anchored at the start
only): `[A-Z]{1,2}\d[A-Z\d]?\s*\d[A-Z]{2}`; the letter-count choice is
a disjunction, which subsumes the regex backtracking. -/
def matchUK (l : Str) : Bool :=
  match l with
  | c1 :: rest =>
    isAlphaCh c1 &&
      ((match rest with
        | c2 :: rest2 => isAlphaCh c2 && matchUKAfterLetters rest2
        | [] => false) || matchUKAfterLetters rest)
  | [] => false

/-- `occ_comps_cleaner._normalise_postcode`: uppercase and de-space; if
the cleaned string starts with the UK pattern, re-insert one space
before the final 3 characters, otherwise return the stripped uppercase
input unchanged. -/
def normalisePostcodeOcc (raw : Str) : Str :=
  let cleaned := removeWs (pyUpper (pyStrip raw))
  if !matchUK cleaned then pyUpper (pyStrip raw)
  else if cleaned.length > 3 then
    cleaned.take (cleaned.length - 3) ++ ' ' :: cleaned.drop (cleaned.length - 3)
  else cleaned

/-- A word boundary `\b` to the left of the current position, given
the preceding character (if any). -/
def wordBoundary (prev : Option Char) : Bool :=
  match prev with
  | none => true
  | some c => !isWordCh c

/-- `re.search` driver: try the position predicate at every suffix of
the string, tracking the preceding character for `\b` tests. -/
def searchBoundAux (pred : Option Char → Str → Bool) : Option Char → Str → Bool
  | prev, [] => pred prev []
  | prev, c :: rest => pred prev (c :: rest) || searchBoundAux pred (some c) rest

/-- Case-insensitive `\b<w>\b` at the current position (`w` must be a
lowercase word). -/
def wordAt (w : Str) (prev : Option Char) (l : Str) : Bool :=
  wordBoundary prev && headMatch w (pyLower l) &&
    (match l.drop w.length with
     | [] => true
     | c :: _ => !isWordCh c)

/-- `find_occ_dupes.is_vacant`: tenant contains the word `vacant`
(case-insensitive); blank tenant is not vacant. -/
def isVacant (tenant : Str) : Bool :=
  if tenant = [] || pyStrip tenant = [] then false
  else searchBoundAux (wordAt "vacant".toList) none tenant

/-- The bare `re.search(r'(?i)\bvacant\b', ·)` used on the notes of
rows with a blank tenant. -/
def searchVacant (s : Str) : Bool :=
  searchBoundAux (wordAt "vacant".toList) none s

/-- `(?i)investment\s+comp` at the current position. -/
def invCompAt (_prev : Option Char) (l : Str) : Bool :=
  headMatch "investment".toList (pyLower l) &&
    (let r := l.drop 10
     (r.takeWhile isSpc) ≠ [] &&
       headMatch "comp".toList (pyLower (r.dropWhile isSpc)))

/-- `(?i)\bcap\s*val` at the current position. -/
def capValAt (prev : Option Char) (l : Str) : Bool :=
  wordBoundary prev && headMatch "cap".toList (pyLower l) &&
    headMatch "val".toList (pyLower ((l.drop 3).dropWhile isSpc))

/-- `find_occ_dupes.is_investment_comp`: notes contain
investment-comp wording, `NIY`, `yield` or `cap val`. -/
def isInvestmentComp (notes : Str) : Bool :=
  searchBoundAux invCompAt none notes ||
    searchBoundAux (wordAt "niy".toList) none notes ||
    searchBoundAux (wordAt "yield".toList) none notes ||
    searchBoundAux capValAt none notes

/-- An in-memory row of the batch sweep (`find_occ_dupes`), as built
by its loading loop: sheet row number, stripped raw tenant, the
normalised tenant/unit, stripped notes, and the parsed rents. -/
structure SweepRow where
  row : ℕ
  tenant_raw : Str
  tenant_norm : Str
  unit_norm : Str
  notes_raw : Str
  rent_pa : Option ℚ
  rent_psf : Option ℚ
deriving DecidableEq

/-- `find_occ_dupes._rents_match` on two loaded rows. -/
def rentsMatchRows (a b : SweepRow) : Bool :=
  isRentClose a.rent_pa b.rent_pa ||
    (a.rent_pa = none && b.rent_pa = none && isRentClose a.rent_psf b.rent_psf)

/-- Sweep phase 1: normalised tenant equality plus rent match. -/
def phase1 (a b : SweepRow) : Bool :=
  a.tenant_norm ≠ [] && b.tenant_norm ≠ [] &&
    a.tenant_norm = b.tenant_norm && rentsMatchRows a b

/-- Sweep phase 2: normalised unit equality plus rent match. -/
def phase2 (a b : SweepRow) : Bool :=
  a.unit_norm ≠ [] && b.unit_norm ≠ [] &&
    a.unit_norm = b.unit_norm && rentsMatchRows a b

/-- Sweep phase 3: fuzzy tenant similarity (≥ 0.90) plus rent match. -/
def phase3 (sim : Str → Str → ℚ) (a b : SweepRow) : Bool :=
  a.tenant_norm ≠ [] && b.tenant_norm ≠ [] && rentsMatchRows a b &&
    decide (sim a.tenant_norm b.tenant_norm ≥ Rat.divInt 9 10)

/-- The removal-only flags of the sweep: vacant tenant (or blank
tenant with vacant notes), investment-comp contamination, or no
usable rent. -/
def sweepSkipFlag (r : SweepRow) : Bool :=
  isVacant r.tenant_raw ||
    (r.tenant_raw = [] && searchVacant r.notes_raw) ||
    isInvestmentComp r.notes_raw ||
    (r.rent_pa = none && r.rent_psf = none)

/-- `skip_rows = vacant_rows | inv_comp_rows | no_rent_rows`. -/
def skipRows (rows : List SweepRow) : List ℕ :=
  (rows.filter sweepSkipFlag).map (fun r => r.row)

/-- Inner loop of the sweep's pair search: candidate duplicates `b`
after the keep row `a`; a matched `b` is recorded in `seen` and never
revisited. -/
def sweepInner (sim : Str → Str → ℚ) (a : SweepRow) (skip : List ℕ) :
    List SweepRow → List ℕ → List (SweepRow × SweepRow) × List ℕ
  | [], seen => ([], seen)
  | b :: rest, seen =>
    if b.row ∈ seen ∨ b.row ∈ skip then sweepInner sim a skip rest seen
    else if phase1 a b || phase2 a b || phase3 sim a b then
      let t := sweepInner sim a skip rest (b.row :: seen)
      ((a, b) :: t.1, t.2)
    else sweepInner sim a skip rest seen

/-- Outer loop of the sweep's pair search: each row in turn is the
keep candidate unless already consumed as a duplicate or flagged for
removal. -/
def sweepOuter (sim : Str → Str → ℚ) (skip : List ℕ) :
    List SweepRow → List ℕ → List (SweepRow × SweepRow)
  | [], _ => []
  | a :: rest, seen =>
    if a.row ∈ seen ∨ a.row ∈ skip then sweepOuter sim skip rest seen
    else
      let t := sweepInner sim a skip rest seen
      t.1 ++ sweepOuter sim skip rest t.2

/-- `find_occ_dupes.dedup_occupational_comps`, pair-finding part:
the `dupes_found` list of (keep, duplicate) pairs. -/
def dedupOccPairs (sim : Str → Str → ℚ) (rows : List SweepRow) :
    List (SweepRow × SweepRow) :=
  sweepOuter sim (skipRows rows) rows []

/-- The blank categories asserted by the spec for `_to_number`
(transcribed from the claim's words, for comparison with `toNumber`):
input `None`, a blank string, a non-numeric string, or a value
numerically equal to zero. -/
def c9ClaimedBlank : CellVal → Prop
  | .pynone => True
  | .num q => q = 0
  | .str s =>
    cleanNumStr s = [] ∨ pyFloatStr (cleanNumStr s) = none ∨ pyFloatStr (cleanNumStr s) = some 0
  | .date _ _ _ => False

/-- The amended blank categories: as claimed, plus any value that is
neither `None`, a number nor a string (e.g. a datetime cell), which the
coercion's final catch-all also maps to `None`. -/
def c9AmendedBlank : CellVal → Prop
  | .pynone => True
  | .num q => q = 0
  | .str s =>
    cleanNumStr s = [] ∨ pyFloatStr (cleanNumStr s) = none ∨ pyFloatStr (cleanNumStr s) = some 0
  | .date _ _ _ => True

/-- Example sweep row (keep side) used to witness the sweep theorems. -/
def sweepRowExA : SweepRow :=
  ⟨2, "Acme Co".toList, "acme co".toList, [], [], some 100000, none⟩

/-- Example sweep row (duplicate side) used to witness the sweep
theorems. -/
def sweepRowExB : SweepRow :=
  ⟨3, "Acme Co".toList, "acme co".toList, [], [], some 100000, none⟩

/-- Example kept row for the merge witnesses: column 6 (address) holds
text, everything else is blank. -/
def rowEx : ℕ → CellVal :=
  fun c => if c = 6 then CellVal.str "12 High St".toList else CellVal.pynone

/-- Example investment comp for the merge witnesses. -/
def invCompEx : InvComp :=
  ⟨"Tipton".toList, "Apex II".toList, none, some 50000, none, none, none,
   some 1000000, some (Rat.divInt 65 10), none, none, none, none, none, none,
   none, none, none, none⟩

/-- Example occupational comp for the merge witnesses. -/
def occCompEx : OccComp :=
  ⟨"Savills".toList, "Acme Ltd".toList, some "Unit 5".toList,
   "12 High St".toList, "Tipton".toList, none, some 12000, some 90000,
   some (Rat.divInt 75 10), none, none, none, none, none, none, none⟩

/-! ### Bridge lemmas: the reducible arithmetic equals the library operations -/

theorem qAdd_eq (a b : ℚ) : qAdd a b = a + b := by
  rw [qAdd]
  have ha : (a.den : ℤ) ≠ 0 := Int.natCast_ne_zero.mpr a.den_nz
  have hb : (b.den : ℤ) ≠ 0 := Int.natCast_ne_zero.mpr b.den_nz
  rw [← Rat.divInt_add_divInt _ _ ha hb, Rat.num_divInt_den, Rat.num_divInt_den]

theorem qSub_eq (a b : ℚ) : qSub a b = a - b := by
  rw [qSub, qAdd_eq, sub_eq_add_neg]

theorem qMul_eq (a b : ℚ) : qMul a b = a * b := by
  rw [qMul, ← Rat.divInt_mul_divInt', Rat.num_divInt_den, Rat.num_divInt_den]

theorem qDiv_eq (a b : ℚ) : qDiv a b = a / b := by
  rw [qDiv, ← Rat.divInt_div_divInt, Rat.num_divInt_den, Rat.num_divInt_den]

theorem qAbs_eq (a : ℚ) : qAbs a = |a| := by
  rw [qAbs]
  by_cases h : a < 0
  · rw [if_pos h, abs_of_neg h]
  · rw [if_neg h, abs_of_nonneg (not_lt.mp h)]

theorem pow10_eq (n : ℕ) : pow10 n = (10 : ℚ) ^ n := by
  rw [pow10, Rat.divInt_one]
  push_cast
  ring

theorem rat_floor_eq (q : ℚ) : Rat.floor q = ⌊q⌋ := by
  rw [Rat.floor_def', ← Rat.floor_def]

/-- C6: the write gateway retries only on a file-lock failure, runs at
most `MAX_RETRIES = 3` attempts with sleeps of 5 s then 10 s (base 5,
doubling) between lock-failed attempts, aborts immediately (no retry)
on any other failure, and returns `false` after exhausting the retry
budget; being a total function into `RetryTrace`, it never raises. -/
theorem retry_write_policy (o : ℕ → AttemptResult) :
    (retryWrite o).attempts ≤ MAX_RETRIES ∧
    (retryWrite o).sleeps =
      (List.range ((retryWrite o).attempts - 1)).map (fun i => RETRY_DELAY * 2 ^ i) ∧
    (∀ i, i + 1 < (retryWrite o).attempts → o i = .lockErr) ∧
    ((∀ i, i < MAX_RETRIES → o i = .lockErr) →
      (retryWrite o).result = false ∧ (retryWrite o).attempts = MAX_RETRIES) ∧
    (∀ i, i < MAX_RETRIES → (∀ j, j < i → o j = .lockErr) → o i = .ioErr →
      (retryWrite o).result = false ∧ (retryWrite o).attempts = i + 1) := by
  cases h0 : o 0 with
  | ok b0 =>
    have ht : retryWrite o = ⟨b0, [], 1⟩ := by
      simp [retryWrite, retryWriteGo, MAX_RETRIES, h0]
    rw [ht]
    refine ⟨by norm_num [MAX_RETRIES], by simp, by intro i hi; simp at hi, ?_, ?_⟩
    · intro h; have := h 0 (by norm_num [MAX_RETRIES]); rw [h0] at this; cases this
    · intro i _ hprev hio
      rcases Nat.eq_zero_or_pos i with rfl | hpos
      · rw [h0] at hio; cases hio
      · have := hprev 0 hpos; rw [h0] at this; cases this
  | ioErr =>
    have ht : retryWrite o = ⟨false, [], 1⟩ := by
      simp [retryWrite, retryWriteGo, MAX_RETRIES, h0]
    rw [ht]
    refine ⟨by norm_num [MAX_RETRIES], by simp, by intro i hi; simp at hi, ?_, ?_⟩
    · intro h; have := h 0 (by norm_num [MAX_RETRIES]); rw [h0] at this; cases this
    · intro i _ hprev hio
      rcases Nat.eq_zero_or_pos i with rfl | hpos
      · exact ⟨rfl, rfl⟩
      · have := hprev 0 hpos; rw [h0] at this; cases this
  | lockErr =>
    cases h1 : o 1 with
    | ok b1 =>
      have ht : retryWrite o = ⟨b1, [5], 2⟩ := by
        simp [retryWrite, retryWriteGo, MAX_RETRIES, RETRY_DELAY, h0, h1]
      rw [ht]
      refine ⟨by norm_num [MAX_RETRIES], by norm_num [List.range_succ, RETRY_DELAY], ?_, ?_, ?_⟩
      · intro i hi; simp at hi; have h : i = 0 := by omega
        subst h; exact h0
      · intro h; have := h 1 (by norm_num [MAX_RETRIES]); rw [h1] at this; cases this
      · intro i hi hprev hio
        norm_num [MAX_RETRIES] at hi
        interval_cases i
        · rw [h0] at hio; cases hio
        · rw [h1] at hio; cases hio
        · have := hprev 1 (by omega); rw [h1] at this; cases this
    | ioErr =>
      have ht : retryWrite o = ⟨false, [5], 2⟩ := by
        simp [retryWrite, retryWriteGo, MAX_RETRIES, RETRY_DELAY, h0, h1]
      rw [ht]
      refine ⟨by norm_num [MAX_RETRIES], by norm_num [List.range_succ, RETRY_DELAY], ?_, ?_, ?_⟩
      · intro i hi; simp at hi; have h : i = 0 := by omega
        subst h; exact h0
      · intro h; have := h 1 (by norm_num [MAX_RETRIES]); rw [h1] at this; cases this
      · intro i hi hprev hio
        norm_num [MAX_RETRIES] at hi
        interval_cases i
        · rw [h0] at hio; cases hio
        · exact ⟨rfl, rfl⟩
        · have := hprev 1 (by omega); rw [h1] at this; cases this
    | lockErr =>
      cases h2 : o 2 with
      | ok b2 =>
        have ht : retryWrite o = ⟨b2, [5, 10], 3⟩ := by
          simp [retryWrite, retryWriteGo, MAX_RETRIES, RETRY_DELAY, h0, h1, h2]
        rw [ht]
        refine ⟨by norm_num [MAX_RETRIES], by norm_num [List.range_succ, RETRY_DELAY], ?_, ?_, ?_⟩
        · intro i hi; simp at hi
          have hub : i < 2 := by omega
          interval_cases i
          · exact h0
          · exact h1
        · intro h; have := h 2 (by norm_num [MAX_RETRIES]); rw [h2] at this; cases this
        · intro i hi hprev hio
          norm_num [MAX_RETRIES] at hi
          interval_cases i
          · rw [h0] at hio; cases hio
          · rw [h1] at hio; cases hio
          · rw [h2] at hio; cases hio
      | ioErr =>
        have ht : retryWrite o = ⟨false, [5, 10], 3⟩ := by
          simp [retryWrite, retryWriteGo, MAX_RETRIES, RETRY_DELAY, h0, h1, h2]
        rw [ht]
        refine ⟨by norm_num [MAX_RETRIES], by norm_num [List.range_succ, RETRY_DELAY], ?_, ?_, ?_⟩
        · intro i hi; simp at hi
          have hub : i < 2 := by omega
          interval_cases i
          · exact h0
          · exact h1
        · intro h; have := h 2 (by norm_num [MAX_RETRIES]); rw [h2] at this; cases this
        · intro i hi hprev hio
          norm_num [MAX_RETRIES] at hi
          interval_cases i
          · rw [h0] at hio; cases hio
          · rw [h1] at hio; cases hio
          · exact ⟨rfl, rfl⟩
      | lockErr =>
        have ht : retryWrite o = ⟨false, [5, 10], 3⟩ := by
          simp [retryWrite, retryWriteGo, MAX_RETRIES, RETRY_DELAY, h0, h1, h2]
        rw [ht]
        refine ⟨by norm_num [MAX_RETRIES], by norm_num [List.range_succ, RETRY_DELAY], ?_, ?_, ?_⟩
        · intro i hi; simp at hi
          have hub : i < 2 := by omega
          interval_cases i
          · exact h0
          · exact h1
        · intro _; exact ⟨rfl, rfl⟩
        · intro i hi hprev hio
          norm_num [MAX_RETRIES] at hi
          interval_cases i
          · rw [h0] at hio; cases hio
          · rw [h1] at hio; cases hio
          · rw [h2] at hio; cases hio

/-- Witness for C6: all three attempts hit the lock → result `false`
after 3 attempts. -/
theorem retry_write_policy_witness :
    (retryWrite (fun _ => AttemptResult.lockErr)).result = false ∧
      (retryWrite (fun _ => AttemptResult.lockErr)).attempts = MAX_RETRIES :=
  (retry_write_policy (fun _ => AttemptResult.lockErr)).2.2.2.1 (fun _ _ => rfl)

/-- C4: derivation convergence — a row with blank rent_pa, rent_psf and
capval but price 1,000,000, stored yield 0.065 and area 50,000 gets all
three fields derived in a single pass, in rule-table order:
rent_pa = round(1,000,000 × 1.068 × 0.065, 2) = 69,420, then
rent_psf = round(69,420 / 50,000, 2) = 1.39, then
capval_psf = round(1,000,000 / 50,000, 2) = 20. -/
theorem derivation_convergence_example :
    cleanInvRow
      ⟨CellVal.pynone, CellVal.pynone, CellVal.num 50000, CellVal.pynone,
       CellVal.pynone, CellVal.num 1000000, CellVal.num (Rat.divInt 65 1000), CellVal.pynone⟩ =
      ⟨CellVal.pynone, CellVal.pynone, CellVal.num 50000, CellVal.num 69420,
       CellVal.num (Rat.divInt 139 100), CellVal.num 1000000, CellVal.num (Rat.divInt 65 1000),
       CellVal.num 20⟩ := by
  decide

/-- C7 counterexample: on `"hello"`, which contains no UK postcode
pattern, `_normalise_postcode` returns `"HELLO"` (the stripped
uppercase input), not the empty string the claim requires. -/
theorem normalise_postcode_invalid_not_empty :
    normalisePostcodeOcc "hello".toList = "HELLO".toList ∧
      normalisePostcodeOcc "hello".toList ≠ [] := by
  decide

/-- C3 counterexample: a comp whose tenant is `"Vacant - 12m rental
guarantee"` (vacant with trailing qualifier text) is NOT skipped by the
writer's occupational matcher: against a sheet row with the same tenant
and rent it returns a match (row index 0). -/
theorem occ_vacant_qualifier_matches :
    findDupOcc (fun _ _ => 0)
      [⟨CellVal.str "x".toList, "Vacant - 12m rental guarantee".toList, [],
        CellVal.num 100000, CellVal.pynone⟩]
      ⟨"deal".toList, "Vacant - 12m rental guarantee".toList, none, [], [], none,
       none, some 100000, none, none, none, none, none, none, none, none⟩ = some 0 := by
  decide

/-! ### Character and string facts for the postcode normaliser -/

theorem charEq_iff (c d : Char) : c = d ↔ c.toNat = d.toNat := by
  constructor
  · intro h; rw [h]
  · intro h; exact Char.eq_of_val_eq (UInt32.ext h)

theorem upCh_toNat (c : Char) :
    (upCh c).toNat = if 97 ≤ c.toNat ∧ c.toNat ≤ 122 then c.toNat - 32 else c.toNat := by
  unfold upCh
  by_cases hb : (decide ('a' ≤ c) && decide (c ≤ 'z')) = true
  · have hn : 97 ≤ c.toNat ∧ c.toNat ≤ 122 := by
      simpa only [Bool.and_eq_true, decide_eq_true_eq] using hb
    rw [if_pos hb, if_pos hn]
    unfold Char.ofNat
    rw [dif_pos (Or.inl (by omega))]
    rfl
  · have hn : ¬(97 ≤ c.toNat ∧ c.toNat ≤ 122) := by
      simpa only [Bool.and_eq_true, decide_eq_true_eq] using hb
    rw [if_neg hb, if_neg hn]

theorem upCh_idem (c : Char) : upCh (upCh c) = upCh c := by
  rw [charEq_iff, upCh_toNat, upCh_toNat]
  split_ifs <;> omega

theorem isSpc_toNat (d : Char) :
    isSpc d = (decide (d.toNat = 32) || decide (d.toNat = 9) || decide (d.toNat = 10) ||
      decide (d.toNat = 13) || decide (d.toNat = 11) || decide (d.toNat = 12)) := by
  unfold isSpc
  rw [show ((d = ' ' : Bool)) = decide (d.toNat = 32) by
        rw [show (32 : ℕ) = (' ' : Char).toNat from rfl]; exact decide_eq_decide.mpr (charEq_iff d _),
      show ((d = '\t' : Bool)) = decide (d.toNat = 9) by
        rw [show (9 : ℕ) = ('\t' : Char).toNat from rfl]; exact decide_eq_decide.mpr (charEq_iff d _),
      show ((d = '\n' : Bool)) = decide (d.toNat = 10) by
        rw [show (10 : ℕ) = ('\n' : Char).toNat from rfl]; exact decide_eq_decide.mpr (charEq_iff d _),
      show ((d = '\r' : Bool)) = decide (d.toNat = 13) by
        rw [show (13 : ℕ) = ('\r' : Char).toNat from rfl]; exact decide_eq_decide.mpr (charEq_iff d _),
      show ((d = '\x0b' : Bool)) = decide (d.toNat = 11) by
        rw [show (11 : ℕ) = ('\x0b' : Char).toNat from rfl]; exact decide_eq_decide.mpr (charEq_iff d _),
      show ((d = '\x0c' : Bool)) = decide (d.toNat = 12) by
        rw [show (12 : ℕ) = ('\x0c' : Char).toNat from rfl]; exact decide_eq_decide.mpr (charEq_iff d _)]

theorem isSpc_upCh (c : Char) : isSpc (upCh c) = isSpc c := by
  rw [isSpc_toNat, isSpc_toNat, upCh_toNat]
  split_ifs with h
  · rw [decide_eq_false (show ¬(c.toNat - 32 = 32) by omega),
        decide_eq_false (show ¬(c.toNat - 32 = 9) by omega),
        decide_eq_false (show ¬(c.toNat - 32 = 10) by omega),
        decide_eq_false (show ¬(c.toNat - 32 = 13) by omega),
        decide_eq_false (show ¬(c.toNat - 32 = 11) by omega),
        decide_eq_false (show ¬(c.toNat - 32 = 12) by omega),
        decide_eq_false (show ¬(c.toNat = 32) by omega),
        decide_eq_false (show ¬(c.toNat = 9) by omega),
        decide_eq_false (show ¬(c.toNat = 10) by omega),
        decide_eq_false (show ¬(c.toNat = 13) by omega),
        decide_eq_false (show ¬(c.toNat = 11) by omega),
        decide_eq_false (show ¬(c.toNat = 12) by omega)]
  · rfl

theorem dwLen (p : Char → Bool) (l : Str) : (l.dropWhile p).length ≤ l.length := by
  induction l with
  | nil => simp
  | cons c t ih =>
    rw [List.dropWhile_cons]
    split
    · exact le_trans ih (by simp)
    · simp

theorem dropWhile_cons_false {p : Char → Bool} {c : Char} {t : Str} (h : p c = false) :
    List.dropWhile p (c :: t) = c :: t := by
  rw [List.dropWhile_cons, h]
  simp

theorem dropWhile_idem (p : Char → Bool) (l : Str) :
    List.dropWhile p (List.dropWhile p l) = List.dropWhile p l := by
  induction l with
  | nil => simp
  | cons c t ih =>
    rw [List.dropWhile_cons]
    split
    · exact ih
    · next hc => exact dropWhile_cons_false (Bool.not_eq_true _ ▸ hc)

theorem ltrim_rtrim_comm (l : Str) :
    List.dropWhile isSpc (((l.reverse.dropWhile isSpc).reverse : Str)) =
      ((List.dropWhile isSpc l).reverse.dropWhile isSpc).reverse := by
  induction l with
  | nil => simp
  | cons c t ih =>
    by_cases hc : isSpc c = true
    · rw [List.dropWhile_cons, if_pos hc]
      rw [show (c :: t).reverse = t.reverse ++ [c] from by simp]
      rw [List.dropWhile_append]
      by_cases ht : t.reverse.dropWhile isSpc = []
      · rw [ht]
        simp only [List.isEmpty_nil, if_true]
        rw [show List.dropWhile isSpc [c] = [] from by simp [List.dropWhile_cons, hc]]
        have h2 : t.dropWhile isSpc = [] := by
          have hall : ∀ x ∈ t.reverse, isSpc x = true := List.dropWhile_eq_nil_iff.mp ht
          exact List.dropWhile_eq_nil_iff.mpr (fun x hx => hall x (by simpa using hx))
        rw [h2]
        simp
      · rw [if_neg (by simpa [List.isEmpty_iff] using ht)]
        rw [show ((t.reverse.dropWhile isSpc ++ [c]).reverse : Str)
              = c :: (t.reverse.dropWhile isSpc).reverse from by simp]
        rw [List.dropWhile_cons, if_pos hc]
        exact ih
    · have hc2 : isSpc c = false := by simpa using hc
      rw [dropWhile_cons_false hc2]
      rw [show (c :: t).reverse = t.reverse ++ [c] from by simp]
      rw [List.dropWhile_append]
      by_cases ht : t.reverse.dropWhile isSpc = []
      · rw [ht]
        simp only [List.isEmpty_nil, if_true]
        rw [show List.dropWhile isSpc [c] = [c] from dropWhile_cons_false hc2]
        rw [show ([c] : Str).reverse = [c] from rfl]
        exact dropWhile_cons_false hc2
      · rw [if_neg (by simpa [List.isEmpty_iff] using ht)]
        rw [show ((t.reverse.dropWhile isSpc ++ [c]).reverse : Str)
              = c :: (t.reverse.dropWhile isSpc).reverse from by simp]
        exact dropWhile_cons_false hc2

theorem strip_idem (s : Str) : pyStrip (pyStrip s) = pyStrip s := by
  unfold pyStrip
  rw [ltrim_rtrim_comm, dropWhile_idem, ltrim_rtrim_comm, dropWhile_idem]
  rw [List.reverse_reverse]

theorem upCh_comp : upCh ∘ upCh = upCh := funext upCh_idem

theorem upper_idem_list (s : Str) : pyUpper (pyUpper s) = pyUpper s := by
  unfold pyUpper
  rw [List.map_map, upCh_comp]

theorem isSpc_comp : isSpc ∘ upCh = isSpc := funext isSpc_upCh

theorem strip_upper_comm (s : Str) : pyStrip (pyUpper s) = pyUpper (pyStrip s) := by
  unfold pyStrip pyUpper
  rw [List.dropWhile_map, isSpc_comp, ← List.map_reverse, List.dropWhile_map, isSpc_comp,
    ← List.map_reverse]

theorem filter_dropWhile (l : Str) :
    List.filter (fun c => !isSpc c) (l.dropWhile isSpc) = List.filter (fun c => !isSpc c) l := by
  induction l with
  | nil => simp
  | cons c t ih =>
    rw [List.dropWhile_cons]
    by_cases hc : isSpc c = true
    · rw [if_pos hc, ih, List.filter_cons]
      simp [hc]
    · rw [if_neg hc]

theorem remove_strip (s : Str) : removeWs (pyStrip s) = removeWs s := by
  unfold removeWs pyStrip
  rw [List.filter_reverse, filter_dropWhile, List.filter_reverse, List.reverse_reverse,
    filter_dropWhile]

theorem remove_upper_comm (s : Str) : removeWs (pyUpper s) = pyUpper (removeWs s) := by
  unfold removeWs pyUpper
  rw [List.filter_map]
  congr 1
  apply List.filter_congr
  intro c _
  show (!isSpc (upCh c)) = (!isSpc c)
  rw [isSpc_upCh]

theorem strip_noedge (x : Str) (h1 : ∀ c, x.head? = some c → isSpc c = false)
    (h2 : ∀ c, x.getLast? = some c → isSpc c = false) : pyStrip x = x := by
  unfold pyStrip
  have hd : x.dropWhile isSpc = x := by
    cases x with
    | nil => rfl
    | cons c t => exact dropWhile_cons_false (h1 c rfl)
  rw [hd]
  have hl : x.reverse.dropWhile isSpc = x.reverse := by
    cases hx : x.reverse with
    | nil => rfl
    | cons c t =>
      apply dropWhile_cons_false
      apply h2
      rw [← List.head?_reverse, hx]
      rfl
  rw [hl, List.reverse_reverse]

theorem matchUKTail_len {l : Str} (h : matchUKTail l = true) : 3 ≤ l.length := by
  unfold matchUKTail at h
  have hle := dwLen isSpc l
  cases hx : l.dropWhile isSpc with
  | nil => rw [hx] at h; cases h
  | cons d t =>
    rw [hx] at h
    cases t with
    | nil => cases h
    | cons x t2 =>
      cases t2 with
      | nil => cases h
      | cons y t3 =>
        have : 3 ≤ (l.dropWhile isSpc).length := by rw [hx]; simp
        omega

theorem matchUKAfterDigit_len {l : Str} (h : matchUKAfterDigit l = true) : 3 ≤ l.length := by
  unfold matchUKAfterDigit at h
  rw [Bool.or_eq_true] at h
  rcases h with h | h
  · cases l with
    | nil => cases h
    | cons c rest =>
      rw [Bool.and_eq_true] at h
      have := matchUKTail_len h.2
      simp
      omega
  · exact matchUKTail_len h

theorem matchUKAfterLetters_len {l : Str} (h : matchUKAfterLetters l = true) : 4 ≤ l.length := by
  unfold matchUKAfterLetters at h
  cases l with
  | nil => cases h
  | cons d rest =>
    rw [Bool.and_eq_true] at h
    have := matchUKAfterDigit_len h.2
    simp
    omega

theorem matchUK_len {l : Str} (h : matchUK l = true) : 5 ≤ l.length := by
  unfold matchUK at h
  cases l with
  | nil => cases h
  | cons c1 rest =>
    rw [Bool.and_eq_true, Bool.or_eq_true] at h
    rcases h.2 with h2 | h2
    · cases rest with
      | nil => cases h2
      | cons c2 rest2 =>
        rw [Bool.and_eq_true] at h2
        have := matchUKAfterLetters_len h2.2
        simp
        omega
    · have := matchUKAfterLetters_len h2
      simp
      omega

theorem getLast?_mem_list {a : Char} {l : Str} (h : l.getLast? = some a) : a ∈ l := by
  obtain ⟨hne, rfl⟩ := List.mem_getLast?_eq_getLast (Option.mem_def.mpr h)
  exact List.getLast_mem hne

theorem mem_removeWs_not_spc {c : Char} {l : Str} (h : c ∈ removeWs l) : isSpc c = false := by
  unfold removeWs at h
  simpa using (List.mem_filter.mp h).2

theorem mem_removeWs_mem {c : Char} {l : Str} (h : c ∈ removeWs l) : c ∈ l :=
  (List.mem_filter.mp h).1

theorem mem_pyUpper_fix {c : Char} {l : Str} (h : c ∈ pyUpper l) : upCh c = c := by
  unfold pyUpper at h
  obtain ⟨a, _, rfl⟩ := List.mem_map.mp h
  exact upCh_idem a

/-- C7 (amended): on input with no anchored UK-postcode pattern in its
de-spaced uppercase form, the normaliser returns the stripped uppercase
input (not the empty string); on a pattern match it returns the cleaned
string (length ≥ 5) with a single space re-inserted before the final 3
characters. -/
theorem normalise_postcode_behaviour (raw : Str) :
    (matchUK (removeWs (pyUpper (pyStrip raw))) = false →
      normalisePostcodeOcc raw = pyUpper (pyStrip raw)) ∧
    (matchUK (removeWs (pyUpper (pyStrip raw))) = true →
      5 ≤ (removeWs (pyUpper (pyStrip raw))).length ∧
        normalisePostcodeOcc raw =
          (removeWs (pyUpper (pyStrip raw))).take
              ((removeWs (pyUpper (pyStrip raw))).length - 3) ++
            ' ' :: (removeWs (pyUpper (pyStrip raw))).drop
              ((removeWs (pyUpper (pyStrip raw))).length - 3)) := by
  constructor
  · intro h
    simp [normalisePostcodeOcc, h]
  · intro h
    have h5 := matchUK_len h
    exact ⟨h5, by simp [normalisePostcodeOcc, h, show 3 < (removeWs (pyUpper (pyStrip raw))).length by omega]⟩

/-- Witness for C7's amended theorem at a concrete valid postcode. -/
theorem normalise_postcode_behaviour_witness :
    5 ≤ (removeWs (pyUpper (pyStrip "dy4  0py".toList))).length ∧
      normalisePostcodeOcc "dy4  0py".toList =
        (removeWs (pyUpper (pyStrip "dy4  0py".toList))).take
            ((removeWs (pyUpper (pyStrip "dy4  0py".toList))).length - 3) ++
          ' ' :: (removeWs (pyUpper (pyStrip "dy4  0py".toList))).drop
            ((removeWs (pyUpper (pyStrip "dy4  0py".toList))).length - 3) :=
  (normalise_postcode_behaviour _).2 (by decide)

/-- C8: the postcode normaliser is idempotent. -/
theorem normalise_postcode_idem (x : Str) :
    normalisePostcodeOcc (normalisePostcodeOcc x) = normalisePostcodeOcc x := by
  by_cases hm : matchUK (removeWs (pyUpper (pyStrip x))) = true
  · obtain ⟨h5, heq⟩ := (normalise_postcode_behaviour x).2 hm
    set cl := removeWs (pyUpper (pyStrip x)) with hcl
    rw [heq]
    have hps : cl.take (cl.length - 3) ++ cl.drop (cl.length - 3) = cl :=
      List.take_append_drop _ _
    have hplen : (cl.take (cl.length - 3)).length = cl.length - 3 := by
      rw [List.length_take]; omega
    have hslen : (cl.drop (cl.length - 3)).length = 3 := by
      rw [List.length_drop]; omega
    have hmemPre : ∀ c ∈ cl.take (cl.length - 3), c ∈ cl :=
      fun c hc => List.mem_of_mem_take hc
    have hmemSuf : ∀ c ∈ cl.drop (cl.length - 3), c ∈ cl :=
      fun c hc => List.mem_of_mem_drop hc
    have hclspc : ∀ c ∈ cl, isSpc c = false := fun c hc => mem_removeWs_not_spc (hcl ▸ hc)
    have hclup : ∀ c ∈ cl, upCh c = c :=
      fun c hc => mem_pyUpper_fix (mem_removeWs_mem (hcl ▸ hc))
    have hstrip : pyStrip (cl.take (cl.length - 3) ++ ' ' :: cl.drop (cl.length - 3))
        = cl.take (cl.length - 3) ++ ' ' :: cl.drop (cl.length - 3) := by
      apply strip_noedge
      · intro c hc
        cases hp : cl.take (cl.length - 3) with
        | nil => rw [hp] at hplen; simp at hplen; omega
        | cons p pt =>
          rw [hp] at hc
          simp only [List.cons_append, List.head?_cons, Option.some_inj] at hc
          subst hc
          exact hclspc _ (hmemPre _ (hp ▸ List.mem_cons_self _ _))
      · intro c hc
        cases hs : cl.drop (cl.length - 3) with
        | nil => rw [hs] at hslen; simp at hslen
        | cons s0 st =>
          rw [hs] at hc
          rw [List.getLast?_append, List.getLast?_cons_cons] at hc
          have hgl : (s0 :: st).getLast? = some c := by
            cases hgg : (s0 :: st).getLast? with
            | none => exact absurd (List.getLast?_eq_none_iff.mp hgg) (by simp)
            | some d => rw [hgg] at hc; simpa using hc
          exact hclspc _ (hmemSuf _ (hs ▸ getLast?_mem_list hgl))
    have hupper : pyUpper (cl.take (cl.length - 3) ++ ' ' :: cl.drop (cl.length - 3))
        = cl.take (cl.length - 3) ++ ' ' :: cl.drop (cl.length - 3) := by
      apply (List.map_congr_left ?_).trans (List.map_id _)
      intro c hc
      rcases List.mem_append.mp hc with hc | hc
      · exact hclup _ (hmemPre _ hc)
      · rcases List.mem_cons.mp hc with rfl | hc
        · rfl
        · exact hclup _ (hmemSuf _ hc)
    have hremove : removeWs (cl.take (cl.length - 3) ++ ' ' :: cl.drop (cl.length - 3)) = cl := by
      unfold removeWs
      rw [List.filter_append]
      rw [List.filter_eq_self.mpr (fun a ha => by rw [hclspc a (hmemPre _ ha)]; rfl)]
      rw [List.filter_cons]
      simp only [show (!isSpc ' ') = false from rfl, Bool.false_eq_true, if_false]
      rw [List.filter_eq_self.mpr (fun a ha => by rw [hclspc a (hmemSuf _ ha)]; rfl)]
      exact hps
    show normalisePostcodeOcc _ = _
    unfold normalisePostcodeOcc
    rw [hstrip, hupper, hremove]
    simp only [hm, Bool.not_true, Bool.false_eq_true, if_false]
    rw [if_pos (by omega : 3 < cl.length)]
  · have hm2 : matchUK (removeWs (pyUpper (pyStrip x))) = false := by simpa using hm
    have heq := (normalise_postcode_behaviour x).1 hm2
    rw [heq]
    have hstrip : pyStrip (pyUpper (pyStrip x)) = pyUpper (pyStrip x) := by
      rw [strip_upper_comm, strip_idem]
    unfold normalisePostcodeOcc
    rw [hstrip, upper_idem_list]
    simp only [hm2, Bool.not_false, if_true]

/-- C9 counterexample: a datetime cell value is coerced to `None` by
`_to_number` although it is in none of the claim's listed categories
(not `None`, not a string, not numerically zero). -/
theorem to_number_date_blank_unlisted :
    ¬((toNumber (CellVal.date 2025 1 1) = none) ↔ c9ClaimedBlank (CellVal.date 2025 1 1)) := by
  intro h
  exact h.mp rfl

/-- C9 (amended): `_to_number` returns `None` exactly on `None`, blank
or non-numeric strings, numerically-zero values, and non-number,
non-string values such as datetimes; and it never returns the number 0,
so every derivation-rule division it guards has a nonzero divisor. -/
theorem to_number_blank_charact (v : CellVal) :
    (toNumber v = none ↔ c9AmendedBlank v) ∧ (∀ q, toNumber v = some q → q ≠ 0) := by
  cases v with
  | pynone => exact ⟨by simp [toNumber, c9AmendedBlank], by simp [toNumber]⟩
  | num q =>
    by_cases h : q = 0
    · subst h
      exact ⟨by simp [toNumber, c9AmendedBlank], by simp [toNumber]⟩
    · constructor
      · simp [toNumber, c9AmendedBlank, h]
      · intro q' hq'
        simp only [toNumber, if_neg h, Option.some_inj] at hq'
        rw [← hq']
        exact h
  | str s =>
    simp only [toNumber, c9AmendedBlank]
    by_cases hcl : cleanNumStr s = []
    · rw [if_pos hcl]
      exact ⟨by simp [hcl], by simp⟩
    · rw [if_neg hcl]
      cases hp : pyFloatStr (cleanNumStr s) with
      | none => exact ⟨by simp [hcl, hp], by simp⟩
      | some r =>
        by_cases hr : r = 0
        · subst hr
          exact ⟨by simp [hcl], by simp⟩
        · constructor
          · simp [hcl, hr]
          · intro q' hq'
            have hrq : r = q' := by simpa [hr] using hq'
            rw [← hrq]
            exact hr
  | date y m d => exact ⟨by simp [toNumber, c9AmendedBlank], by simp [toNumber]⟩

/-- Witness for C9's amended theorem: the number 0 is treated as blank. -/
theorem to_number_blank_charact_witness :
    toNumber (CellVal.num 0) = none :=
  (to_number_blank_charact (CellVal.num 0)).1.mpr rfl

theorem isPriceClose_true_nonzero {pa pb : Option ℚ} (h : isPriceClose pa pb = true) :
    otruthy pa = true ∧ otruthy pb = true := by
  unfold isPriceClose at h
  by_cases h1 : (!otruthy pa || !otruthy pb) = true
  · rw [if_pos h1] at h; cases h
  · simp only [Bool.or_eq_true, Bool.not_eq_true', not_or, Bool.not_eq_false] at h1
    exact h1

theorem findDupInvGo_spec (sim : Str → Str → ℚ) (cp : ℚ) (cOrd : Option ℕ) (ca : Str) :
    ∀ (rows : List InvSheetRow) (k i : ℕ),
      findDupInvGo sim cp cOrd ca rows k = some i →
      ∃ j r, rows.get? j = some r ∧ i = k + j ∧
        ∃ p, pyFloatCell r.price = some p ∧ p ≠ 0 ∧ isPriceClose (some cp) (some p) = true := by
  intro rows
  induction rows with
  | nil => intro k i h; cases h
  | cons r rest ih =>
    intro k i h
    simp only [findDupInvGo] at h
    by_cases ha : pyStrip r.addr = []
    · rw [if_pos ha] at h
      obtain ⟨j, r', hr', hi, hp⟩ := ih (k + 1) i h
      exact ⟨j + 1, r', by simpa using hr', by omega, hp⟩
    · rw [if_neg ha] at h
      cases hp : pyFloatCell r.price with
      | none =>
        rw [hp] at h
        dsimp only at h
        obtain ⟨j, r', hr', hi, hpr⟩ := ih (k + 1) i h
        exact ⟨j + 1, r', by simpa using hr', by omega, hpr⟩
      | some p =>
        rw [hp] at h
        dsimp only at h
        by_cases hc : isPriceClose (some cp) (some p) = true
        · rw [hc] at h
          simp only [Bool.not_true, Bool.false_eq_true, if_false] at h
          by_cases hq : quarterFar cOrd (parseQuarterOrd (pyStrip r.quarter)) = true
          · rw [if_pos hq] at h
            obtain ⟨j, r', hr', hi, hpr⟩ := ih (k + 1) i h
            exact ⟨j + 1, r', by simpa using hr', by omega, hpr⟩
          · rw [if_neg hq] at h
            by_cases haddr : isAddressClose sim ca (pyStrip r.addr) = true
            · rw [haddr] at h
              simp only [Bool.not_true, Bool.false_eq_true, if_false, Option.some_inj] at h
              refine ⟨0, r, rfl, by omega, p, hp, ?_, hc⟩
              have := (isPriceClose_true_nonzero hc).2
              simpa [otruthy] using this
            · have haddr2 : isAddressClose sim ca (pyStrip r.addr) = false := by
                simpa using haddr
              rw [haddr2] at h
              simp only [Bool.not_false, if_true] at h
              obtain ⟨j, r', hr', hi, hpr⟩ := ih (k + 1) i h
              exact ⟨j + 1, r', by simpa using hr', by omega, hpr⟩
        · have hc2 : isPriceClose (some cp) (some p) = false := by simpa using hc
          rw [hc2] at h
          simp only [Bool.not_false, if_true] at h
          obtain ⟨j, r', hr', hi, hpr⟩ := ih (k + 1) i h
          exact ⟨j + 1, r', by simpa using hr', by omega, hpr⟩

/-- C2: price-required invariant — an InvestmentComp with absent (None)
or zero price never matches any existing row, and any matched row has a
float-parseable, nonzero price cell (within 5% of the comp's). -/
theorem inv_price_required (sim : Str → Str → ℚ) (rows : List InvSheetRow) (comp : InvComp) :
    ((comp.price = none ∨ comp.price = some 0) → findDupInv sim rows comp = none) ∧
    (∀ i, findDupInv sim rows comp = some i →
      ∃ r, rows.get? i = some r ∧
        ∃ p, pyFloatCell r.price = some p ∧ p ≠ 0 ∧
          isPriceClose (some (comp.price.getD 0)) (some p) = true) := by
  constructor
  · rintro (h | h) <;> simp [findDupInv, h, otruthy]
  · intro i h
    unfold findDupInv at h
    by_cases ht : otruthy comp.price = true
    · rw [ht] at h
      simp only [Bool.not_true, Bool.false_eq_true, if_false] at h
      obtain ⟨j, r, hr, hi, hpr⟩ := findDupInvGo_spec sim _ _ _ rows 0 i h
      exact ⟨r, by simpa [hi] using hr, hpr⟩
    · have ht2 : otruthy comp.price = false := by simpa using ht
      rw [ht2] at h
      simp at h

/-- Witness for C2: a comp with no price is reported as no-match. -/
theorem inv_price_required_witness :
    findDupInv (fun _ _ => 0) []
      ⟨[], [], none, none, none, none, none, none, none, none, none, none, none,
       none, none, none, none, none, none⟩ = none :=
  (inv_price_required (fun _ _ => 0) [] _).1 (Or.inl rfl)

theorem sweepInner_spec (sim : Str → Str → ℚ) (a : SweepRow) (skip : List ℕ) :
    ∀ (rest : List SweepRow) (seen : List ℕ),
      (∀ p ∈ (sweepInner sim a skip rest seen).1,
        p.1 = a ∧ p.2 ∈ rest ∧ p.2.row ∉ seen ∧ p.2.row ∉ skip ∧
          p.2.row ∈ (sweepInner sim a skip rest seen).2) ∧
      ((sweepInner sim a skip rest seen).1.map (fun p => p.2.row)).Nodup ∧
      (∀ x ∈ seen, x ∈ (sweepInner sim a skip rest seen).2) := by
  intro rest
  induction rest with
  | nil => intro seen; simp [sweepInner]
  | cons b rest ih =>
    intro seen
    by_cases hb : b.row ∈ seen ∨ b.row ∈ skip
    · simp only [sweepInner, if_pos hb]
      obtain ⟨i1, i2, i3⟩ := ih seen
      refine ⟨fun p hp => ?_, i2, i3⟩
      obtain ⟨ha, hm, hs, hk, ht⟩ := i1 p hp
      exact ⟨ha, List.mem_cons_of_mem _ hm, hs, hk, ht⟩
    · by_cases hm : (phase1 a b || phase2 a b || phase3 sim a b) = true
      · simp only [sweepInner, if_neg hb, if_pos hm]
        obtain ⟨i1, i2, i3⟩ := ih (b.row :: seen)
        refine ⟨?_, ?_, ?_⟩
        · intro p hp
          rcases List.mem_cons.mp hp with rfl | hp
          · refine ⟨rfl, List.mem_cons_self _ _, fun hc => hb (Or.inl hc),
              fun hc => hb (Or.inr hc), i3 _ (List.mem_cons_self _ _)⟩
          · obtain ⟨ha, hmem, hs, hk, ht⟩ := i1 p hp
            exact ⟨ha, List.mem_cons_of_mem _ hmem, fun hc => hs (List.mem_cons_of_mem _ hc),
              hk, ht⟩
        · simp only [List.map_cons, List.nodup_cons]
          refine ⟨?_, i2⟩
          intro hc
          obtain ⟨p, hp, hpr⟩ := List.mem_map.mp hc
          exact ((i1 p hp).2.2.1) (hpr ▸ List.mem_cons_self _ _)
        · intro x hx
          exact i3 _ (List.mem_cons_of_mem _ hx)
      · simp only [sweepInner, if_neg hb, if_neg hm]
        obtain ⟨i1, i2, i3⟩ := ih seen
        refine ⟨fun p hp => ?_, i2, i3⟩
        obtain ⟨ha, hmem, hs, hk, ht⟩ := i1 p hp
        exact ⟨ha, List.mem_cons_of_mem _ hmem, hs, hk, ht⟩

theorem sweepOuter_spec (sim : Str → Str → ℚ) (skip : List ℕ) :
    ∀ (rows : List SweepRow) (seen : List ℕ),
      (∀ p ∈ sweepOuter sim skip rows seen,
        List.Sublist [p.1, p.2] rows ∧ p.1.row ∉ skip ∧ p.2.row ∉ skip ∧ p.2.row ∉ seen) ∧
      ((sweepOuter sim skip rows seen).map (fun p => p.2.row)).Nodup := by
  intro rows
  induction rows with
  | nil => intro seen; simp [sweepOuter]
  | cons a rest ih =>
    intro seen
    by_cases hsw : a.row ∈ seen ∨ a.row ∈ skip
    · simp only [sweepOuter, if_pos hsw]
      refine ⟨fun p hp => ?_, (ih seen).2⟩
      obtain ⟨hsub, h1, h2, h3⟩ := (ih seen).1 p hp
      exact ⟨hsub.cons _, h1, h2, h3⟩
    · simp only [sweepOuter, if_neg hsw]
      obtain ⟨hi1, hi2, hi3⟩ := sweepInner_spec sim a skip rest seen
      constructor
      · intro p hp
        rcases List.mem_append.mp hp with hp | hp
        · obtain ⟨hpa, hpb, hps, hpsk, _⟩ := hi1 p hp
          refine ⟨?_, ?_, hpsk, hps⟩
          · rw [hpa]
            exact List.Sublist.cons₂ a (List.singleton_sublist.mpr hpb)
          · rw [hpa]
            intro hc
            exact hsw (Or.inr hc)
        · obtain ⟨hsub, h1, h2, h3⟩ := (ih _).1 p hp
          exact ⟨hsub.cons _, h1, h2, fun hc => h3 (hi3 _ hc)⟩
      · rw [List.map_append]
        apply List.Nodup.append hi2 (ih _).2
        intro x hx1 hx2
        obtain ⟨p, hp, hpr⟩ := List.mem_map.mp hx1
        obtain ⟨q, hq, hqr⟩ := List.mem_map.mp hx2
        have hpt : x ∈ (sweepInner sim a skip rest seen).2 := hpr ▸ (hi1 p hp).2.2.2.2
        exact ((ih _).1 q hq).2.2.2 (hqr ▸ hpt)

/-- C10: in the batch sweep over occupational comps, every reported
duplicate pair keeps the earlier row (strictly smaller row number), the
removed side is never a flagged (vacant / investment-contamination /
no-rent) row, and no row appears as the removed side of more than one
pair. -/
theorem sweep_keep_order (sim : Str → Str → ℚ) (rows : List SweepRow)
    (hmono : rows.Pairwise (fun r s => r.row < s.row)) :
    (∀ p ∈ dedupOccPairs sim rows, p.1.row < p.2.row ∧ p.2.row ∉ skipRows rows) ∧
    ((dedupOccPairs sim rows).map (fun p => p.2.row)).Nodup := by
  obtain ⟨h1, h2⟩ := sweepOuter_spec sim (skipRows rows) rows []
  refine ⟨fun p hp => ?_, h2⟩
  obtain ⟨hsub, hk, hd, _⟩ := h1 p hp
  have hpw := hmono.sublist hsub
  rcases List.pairwise_cons.mp hpw with ⟨hh, _⟩
  exact ⟨hh p.2 (List.mem_cons_self _ _), hd⟩

/-- Witness for C10 on a concrete two-row store that forms one
duplicate pair. -/
theorem sweep_keep_order_witness :
    sweepRowExA.row < sweepRowExB.row ∧
      sweepRowExB.row ∉ skipRows [sweepRowExA, sweepRowExB] :=
  (sweep_keep_order (fun _ _ => 0) [sweepRowExA, sweepRowExB] (by decide)).1
    (sweepRowExA, sweepRowExB) (by decide)

theorem findDupOccGo_spec (sim : Str → Str → ℚ) (ct cu : Str) (crent cpsf : Option ℚ) :
    ∀ (rows : List OccSheetRow) (k i : ℕ),
      findDupOccGo sim ct cu crent cpsf rows k = some i →
      ∃ j r, rows.get? j = some r ∧ i = k + j ∧
        pyTruthy r.source = true ∧
        normaliseTenant (pyStrip r.tenant) ≠ "vacant".toList ∧
        normaliseTenant (pyStrip r.tenant) ≠ "vacant under offer".toList := by
  intro rows
  induction rows with
  | nil => intro k i h; cases h
  | cons r rest ih =>
    intro k i h
    simp only [findDupOccGo] at h
    by_cases hsrc : pyTruthy r.source = true
    · rw [hsrc] at h
      simp only [Bool.not_true, Bool.false_eq_true, if_false] at h
      by_cases hv : (normaliseTenant (pyStrip r.tenant) = "vacant".toList ||
          normaliseTenant (pyStrip r.tenant) = "vacant under offer".toList) = true
      · rw [if_pos hv] at h
        obtain ⟨j, r', hr', hi, hrest⟩ := ih (k + 1) i h
        exact ⟨j + 1, r', by simpa using hr', by omega, hrest⟩
      · rw [if_neg hv] at h
        simp only [Bool.or_eq_true, decide_eq_true_eq, not_or] at hv
        by_cases h1 : (ct ≠ [] && normaliseTenant (pyStrip r.tenant) = ct &&
            rentsMatchW crent cpsf (floatIfTruthy r.rent_pa) (floatIfTruthy r.rent_psf)) = true
        · rw [if_pos h1] at h
          have hik : i = k := (Option.some_inj.mp h).symm
          exact ⟨0, r, rfl, by omega, hsrc, hv.1, hv.2⟩
        · rw [if_neg h1] at h
          by_cases h2 : (cu ≠ [] && normaliseUnit (pyStrip r.unit) ≠ [] &&
              cu = normaliseUnit (pyStrip r.unit) &&
              rentsMatchW crent cpsf (floatIfTruthy r.rent_pa) (floatIfTruthy r.rent_psf)) = true
          · rw [if_pos h2] at h
            have hik : i = k := (Option.some_inj.mp h).symm
            exact ⟨0, r, rfl, by omega, hsrc, hv.1, hv.2⟩
          · rw [if_neg h2] at h
            by_cases h3 : (ct ≠ [] && normaliseTenant (pyStrip r.tenant) ≠ [] &&
                rentsMatchW crent cpsf (floatIfTruthy r.rent_pa) (floatIfTruthy r.rent_psf) &&
                decide (sim ct (normaliseTenant (pyStrip r.tenant)) ≥ Rat.divInt 9 10)) = true
            · rw [if_pos h3] at h
              have hik : i = k := (Option.some_inj.mp h).symm
              exact ⟨0, r, rfl, by omega, hsrc, hv.1, hv.2⟩
            · rw [if_neg h3] at h
              obtain ⟨j, r', hr', hi, hrest⟩ := ih (k + 1) i h
              exact ⟨j + 1, r', by simpa using hr', by omega, hrest⟩
    · have hsrc2 : pyTruthy r.source = false := by simpa using hsrc
      rw [hsrc2] at h
      simp only [Bool.not_false, if_true] at h
      obtain ⟨j, r', hr', hi, hrest⟩ := ih (k + 1) i h
      exact ⟨j + 1, r', by simpa using hr', by omega, hrest⟩

/-- C3 (amended): the writer's occupational matcher skips exactly the
comps and rows whose normalised tenant is `vacant` or `vacant under
offer` (any capitalisation normalises to these); and in the batch
sweep, no duplicate pair has a vacant tenant (word `vacant` anywhere,
qualifiers included) on either side. -/
theorem occ_vacant_exclusion_amended (sim : Str → Str → ℚ) (rows : List OccSheetRow)
    (comp : OccComp) (srows : List SweepRow) :
    ((normaliseTenant comp.tenant_name = "vacant".toList ∨
      normaliseTenant comp.tenant_name = "vacant under offer".toList) →
      findDupOcc sim rows comp = none) ∧
    (∀ i, findDupOcc sim rows comp = some i →
      ∃ r, rows.get? i = some r ∧
        normaliseTenant (pyStrip r.tenant) ≠ "vacant".toList ∧
        normaliseTenant (pyStrip r.tenant) ≠ "vacant under offer".toList) ∧
    (∀ p ∈ dedupOccPairs sim srows,
      isVacant p.1.tenant_raw = false ∧ isVacant p.2.tenant_raw = false) := by
  refine ⟨?_, ?_, ?_⟩
  · rintro (h | h) <;> simp [findDupOcc, h]
  · intro i h
    unfold findDupOcc at h
    by_cases hv : (normaliseTenant comp.tenant_name = "vacant".toList ||
        normaliseTenant comp.tenant_name = "vacant under offer".toList) = true
    · rw [if_pos hv] at h
      cases h
    · rw [if_neg hv] at h
      obtain ⟨j, r, hr, hi, _, hv1, hv2⟩ := findDupOccGo_spec sim _ _ _ _ rows 0 i h
      exact ⟨r, by simpa [hi] using hr, hv1, hv2⟩
  · intro p hp
    obtain ⟨hsub, hk, hd, _⟩ := (sweepOuter_spec sim (skipRows srows) srows []).1 p hp
    have hmem1 : p.1 ∈ srows := hsub.subset (List.mem_cons_self _ _)
    have hmem2 : p.2 ∈ srows := hsub.subset (by simp)
    constructor
    · by_contra hcv
      have hcv2 : isVacant p.1.tenant_raw = true := by simpa using hcv
      apply hk
      unfold skipRows
      apply List.mem_map_of_mem
      apply List.mem_filter.mpr
      exact ⟨hmem1, by unfold sweepSkipFlag; rw [hcv2]; rfl⟩
    · by_contra hcv
      have hcv2 : isVacant p.2.tenant_raw = true := by simpa using hcv
      apply hd
      unfold skipRows
      apply List.mem_map_of_mem
      apply List.mem_filter.mpr
      exact ⟨hmem2, by unfold sweepSkipFlag; rw [hcv2]; rfl⟩

/-- Witness for C3's amended theorem: a comp whose tenant normalises to
exactly `vacant` is skipped by the matcher. -/
theorem occ_vacant_exclusion_amended_witness :
    findDupOcc (fun _ _ => 0)
      [⟨CellVal.str "x".toList, "Acme".toList, [], CellVal.num 100000, CellVal.pynone⟩]
      ⟨"deal".toList, "VACANT".toList, none, [], [], none,
       none, some 100000, none, none, none, none, none, none, none, none⟩ = none :=
  (occ_vacant_exclusion_amended (fun _ _ => 0) _ _ []).1 (Or.inl (by decide))

/-! ### C1: the merge engine never destroys data -/

/-- A blank incoming value makes `mergeStep` a no-op. -/
theorem mergeStep_blank {acc : (ℕ → CellVal) × ℕ} {p : ℕ × CellVal}
    (hb : cellBlank p.2 = true) : mergeStep acc p = acc := by
  simp [mergeStep, hb]

/-- A non-blank existing cell makes `mergeStep` a no-op. -/
theorem mergeStep_skip {acc : (ℕ → CellVal) × ℕ} {p : ℕ × CellVal}
    (hb : cellBlank p.2 = false) (hr : cellBlank (acc.1 p.1) = false) :
    mergeStep acc p = acc := by
  simp [mergeStep, hb, hr]

/-- A non-blank value over a blank cell writes and counts. -/
theorem mergeStep_write {acc : (ℕ → CellVal) × ℕ} {p : ℕ × CellVal}
    (hb : cellBlank p.2 = false) (hr : cellBlank (acc.1 p.1) = true) :
    mergeStep acc p = (updRow acc.1 p.1 p.2, acc.2 + 1) := by
  simp [mergeStep, hb, hr]

/-- Starting the merge fold with fill count `n` yields the same row and
a count shifted by `n`. -/
theorem merge_shift (fields : List (ℕ × CellVal)) :
    ∀ (r : ℕ → CellVal) (n : ℕ),
      fields.foldl mergeStep (r, n) =
        ((fields.foldl mergeStep (r, 0)).1,
         n + (fields.foldl mergeStep (r, 0)).2) := by
  induction fields with
  | nil => intro r n; simp
  | cons p rest ih =>
    intro r n
    simp only [List.foldl_cons]
    cases hb : cellBlank p.2 with
    | true =>
      rw [mergeStep_blank hb, mergeStep_blank hb]
      exact ih r n
    | false =>
      cases hr : cellBlank (r p.1) with
      | false =>
        rw [mergeStep_skip hb hr, mergeStep_skip hb hr]
        exact ih r n
      | true =>
        rw [mergeStep_write hb hr, mergeStep_write hb hr]
        rw [ih (updRow r p.1 p.2) (n + 1), ih (updRow r p.1 p.2) (0 + 1)]
        simp only [Prod.mk.injEq, true_and]
        omega

/-- A cell that is non-blank before the merge is unchanged by it. -/
theorem merge_preserve (fields : List (ℕ × CellVal)) :
    ∀ (row : ℕ → CellVal) (c : ℕ), cellBlank (row c) = false →
      (mergeIntoRow row fields).1 c = row c := by
  induction fields with
  | nil => intro row c _; rfl
  | cons p rest ih =>
    intro row c hc
    show ((p :: rest).foldl mergeStep (row, 0)).1 c = row c
    simp only [List.foldl_cons]
    cases hb : cellBlank p.2 with
    | true =>
      rw [mergeStep_blank hb]
      exact ih row c hc
    | false =>
      cases hr : cellBlank (row p.1) with
      | false =>
        rw [mergeStep_skip hb hr]
        exact ih row c hc
      | true =>
        rw [mergeStep_write hb hr, merge_shift]
        have hcp : c ≠ p.1 := by
          intro h
          rw [h, hr] at hc
          cases hc
        have hu : updRow row p.1 p.2 c = row c := by
          simp [updRow, hcp]
        have := ih (updRow row p.1 p.2) c (by rw [hu]; exact hc)
        calc ((rest.foldl mergeStep (updRow row p.1 p.2, 0)).1) c
            = updRow row p.1 p.2 c := this
          _ = row c := hu

/-- Any cell the merge changes was blank before, and now holds a
non-blank value drawn from the field map at that column. -/
theorem merge_changed (fields : List (ℕ × CellVal)) :
    ∀ (row : ℕ → CellVal) (c : ℕ), (mergeIntoRow row fields).1 c ≠ row c →
      cellBlank (row c) = true ∧
        ∃ v, (c, v) ∈ fields ∧ cellBlank v = false ∧
          (mergeIntoRow row fields).1 c = v := by
  induction fields with
  | nil => intro row c hne; exact absurd rfl hne
  | cons p rest ih =>
    intro row c hne
    have hstep : mergeIntoRow row (p :: rest) =
        rest.foldl mergeStep (mergeStep (row, 0) p) := by
      simp [mergeIntoRow, List.foldl_cons]
    cases hb : cellBlank p.2 with
    | true =>
      rw [hstep, mergeStep_blank hb] at hne ⊢
      obtain ⟨h1, v, hv, h2, h3⟩ := ih row c hne
      exact ⟨h1, v, List.mem_cons_of_mem p hv, h2, h3⟩
    | false =>
      cases hr : cellBlank (row p.1) with
      | false =>
        rw [hstep, mergeStep_skip hb hr] at hne ⊢
        obtain ⟨h1, v, hv, h2, h3⟩ := ih row c hne
        exact ⟨h1, v, List.mem_cons_of_mem p hv, h2, h3⟩
      | true =>
        rw [hstep, mergeStep_write hb hr, merge_shift] at hne ⊢
        by_cases hcp : c = p.1
        · subst hcp
          refine ⟨hr, p.2, ?_, hb, ?_⟩
          · exact Prod.mk.eta ▸ List.mem_cons_self p rest
          · have hu : updRow row p.1 p.2 p.1 = p.2 := by simp [updRow]
            have hpr := merge_preserve rest (updRow row p.1 p.2) p.1
              (by rw [hu]; exact hb)
            rw [show (mergeIntoRow (updRow row p.1 p.2) rest).1 p.1 =
              (rest.foldl mergeStep (updRow row p.1 p.2, 0)).1 p.1 from rfl] at hpr
            rw [hpr, hu]
        · have hu : updRow row p.1 p.2 c = row c := by simp [updRow, hcp]
          have hne' : (mergeIntoRow (updRow row p.1 p.2) rest).1 c ≠
              updRow row p.1 p.2 c := by
            rw [hu]; exact hne
          obtain ⟨h1, v, hv, h2, h3⟩ := ih (updRow row p.1 p.2) c hne'
          rw [hu] at h1
          exact ⟨h1, v, List.mem_cons_of_mem p hv, h2, h3⟩

/-- With duplicate-free columns, the merge's return value counts exactly
the field-map entries that are non-blank and land on a blank cell. -/
theorem merge_count (fields : List (ℕ × CellVal)) :
    ∀ (row : ℕ → CellVal), ((fields.map Prod.fst).Nodup) →
      (mergeIntoRow row fields).2 =
        (fields.filter (fun p => !cellBlank p.2 && cellBlank (row p.1))).length := by
  induction fields with
  | nil => intro row _; rfl
  | cons p rest ih =>
    intro row hnd
    rw [List.map_cons, List.nodup_cons] at hnd
    obtain ⟨hpn, hrest⟩ := hnd
    have hstep : mergeIntoRow row (p :: rest) =
        rest.foldl mergeStep (mergeStep (row, 0) p) := by
      simp [mergeIntoRow, List.foldl_cons]
    cases hb : cellBlank p.2 with
    | true =>
      rw [hstep, mergeStep_blank hb]
      have hpred : (!cellBlank p.2 && cellBlank (row p.1)) = false := by
        rw [hb]; rfl
      rw [List.filter_cons, if_neg (by simp [hpred])]
      exact ih row hrest
    | false =>
      cases hr : cellBlank (row p.1) with
      | false =>
        rw [hstep, mergeStep_skip hb hr]
        have hpred : (!cellBlank p.2 && cellBlank (row p.1)) = false := by
          rw [hb, hr]; rfl
        rw [List.filter_cons, if_neg (by simp [hpred])]
        exact ih row hrest
      | true =>
        rw [hstep, mergeStep_write hb hr, merge_shift]
        have hpred : (!cellBlank p.2 && cellBlank (row p.1)) = true := by
          rw [hb, hr]; rfl
        rw [List.filter_cons, if_pos (by simp [hpred])]
        have hcount := ih (updRow row p.1 p.2) hrest
        have hcong : rest.filter
              (fun q => !cellBlank q.2 && cellBlank (updRow row p.1 p.2 q.1)) =
            rest.filter (fun q => !cellBlank q.2 && cellBlank (row q.1)) := by
          apply List.filter_congr
          intro q hq
          have hq1 : q.1 ≠ p.1 := by
            intro h
            exact hpn (h ▸ List.mem_map_of_mem Prod.fst hq)
          simp [updRow, hq1]
        rw [hcong] at hcount
        simp only [List.length_cons]
        rw [show (mergeIntoRow (updRow row p.1 p.2) rest).2 =
          (rest.foldl mergeStep (updRow row p.1 p.2, 0)).2 from rfl] at hcount
        omega

/-- C1: Merge never destroys data.  For every kept row and duplicate
comp, in both writers: (i) every cell non-blank before the merge keeps
its value; (ii) any cell the merge changes was blank (None or
whitespace-only) before and now holds the duplicate's non-blank value
for that column; (iii) the returned count is exactly the number of
field-map entries whose value is non-blank and whose target cell was
blank — the number of cells filled. -/
theorem merge_never_destroys (row : ℕ → CellVal) (ci : InvComp) (co : OccComp) :
    ((∀ c, cellBlank (row c) = false → (mergeInvIntoRow row ci).1 c = row c) ∧
     (∀ c, (mergeInvIntoRow row ci).1 c ≠ row c →
        cellBlank (row c) = true ∧
          ∃ v, (c, v) ∈ invFieldMap ci ∧ cellBlank v = false ∧
            (mergeInvIntoRow row ci).1 c = v) ∧
     (mergeInvIntoRow row ci).2 =
       ((invFieldMap ci).filter
         (fun p => !cellBlank p.2 && cellBlank (row p.1))).length) ∧
    ((∀ c, cellBlank (row c) = false → (mergeOccIntoRow row co).1 c = row c) ∧
     (∀ c, (mergeOccIntoRow row co).1 c ≠ row c →
        cellBlank (row c) = true ∧
          ∃ v, (c, v) ∈ occFieldMap co ∧ cellBlank v = false ∧
            (mergeOccIntoRow row co).1 c = v) ∧
     (mergeOccIntoRow row co).2 =
       ((occFieldMap co).filter
         (fun p => !cellBlank p.2 && cellBlank (row p.1))).length) := by
  have hni : ((invFieldMap ci).map Prod.fst).Nodup := by
    show ([2, 3, 4, 5, 6, 7, 8, 9, 10, 11, 12, 13, 14, 15, 16, 17, 18, 19,
      20] : List ℕ).Nodup
    decide
  have hno : ((occFieldMap co).map Prod.fst).Nodup := by
    show ([3, 4, 5, 6, 7, 8, 9, 10, 11, 12, 13, 14, 15, 16, 17] : List ℕ).Nodup
    decide
  exact ⟨⟨fun c hc => merge_preserve (invFieldMap ci) row c hc,
          fun c hne => merge_changed (invFieldMap ci) row c hne,
          merge_count (invFieldMap ci) row hni⟩,
         ⟨fun c hc => merge_preserve (occFieldMap co) row c hc,
          fun c hne => merge_changed (occFieldMap co) row c hne,
          merge_count (occFieldMap co) row hno⟩⟩

/-- Witness for C1 at a concrete row and comps: the non-blank address
cell (column 6) survives both merges unchanged, and the investment
merge reports four filled cells. -/
theorem merge_never_destroys_witness :
    cellBlank (rowEx 6) = false ∧
    (mergeInvIntoRow rowEx invCompEx).1 6 = rowEx 6 ∧
    (mergeOccIntoRow rowEx occCompEx).1 6 = rowEx 6 ∧
    (mergeInvIntoRow rowEx invCompEx).2 = 4 :=
  ⟨by decide,
   (merge_never_destroys rowEx invCompEx occCompEx).1.1 6 (by decide),
   (merge_never_destroys rowEx invCompEx occCompEx).2.1 6 (by decide),
   by decide⟩

/-! ### C5: the derivation cascade is idempotent -/

/-- `cleanInvRow` written with its locals factored out: definitional. -/
theorem cleanInvRow_F (r : InvRowCells) :
    cleanInvRow r =
      ⟨r.date, rule1Quarter r.quarter r.date,
       aCellF r.area (toNumber r.area) (toNumber r.rent_pa)
         (toNumber r.rent_psf) (toNumber r.price) (toNumber r.yield_niy),
       paCellF r.rent_pa (toNumber r.area) (toNumber r.rent_pa)
         (toNumber r.rent_psf) (toNumber r.price) (toNumber r.yield_niy),
       psCellF r.rent_psf (toNumber r.area) (toNumber r.rent_pa)
         (toNumber r.rent_psf) (toNumber r.price) (toNumber r.yield_niy),
       r.price, r.yield_niy,
       cvCellF r.capval (toNumber r.area) (toNumber r.rent_pa)
         (toNumber r.rent_psf) (toNumber r.price) (toNumber r.yield_niy)
         (toNumber r.capval)⟩ := rfl

/-- Truthiness sees through the zero-normalisation. -/
theorem otruthy_normOpt (o : Option ℚ) : otruthy (normOpt o) = otruthy o := by
  cases o with
  | none => rfl
  | some q =>
    by_cases h : q = 0 <;> simp [normOpt, otruthy, h]

/-- `getD 0` sees through the zero-normalisation. -/
theorem getD_normOpt (o : Option ℚ) : (normOpt o).getD 0 = o.getD 0 := by
  cases o with
  | none => rfl
  | some q =>
    by_cases h : q = 0 <;> simp [normOpt, h]

/-- Reading back a freshly written numeric cell zero-normalises it. -/
theorem toNumber_num_normOpt (v : ℚ) : toNumber (.num v) = normOpt (some v) := rfl

/-- `_to_number` never produces `some 0`, so it is a `normOpt` fixed
point. -/
theorem normOpt_toNumber (c : CellVal) : normOpt (toNumber c) = toNumber c := by
  cases c with
  | pynone => rfl
  | date y m d => rfl
  | num q =>
    by_cases h : q = 0 <;> simp [toNumber, normOpt, h]
  | str s =>
    unfold toNumber
    by_cases h : cleanNumStr s = []
    · simp [h, normOpt]
    · simp only [h, if_false]
      cases hf : pyFloatStr (cleanNumStr s) with
      | none => simp [normOpt]
      | some r =>
        by_cases hr : r = 0 <;> simp [normOpt, hr]

/-- Reading the written rent-p.a. cell back recovers the zero-normalised
rule-3 local. -/
theorem toNumber_paCellF (rpa : CellVal) (a pa ps pr y : Option ℚ)
    (hrpa : toNumber rpa = pa) :
    toNumber (paCellF rpa a pa ps pr y) = normOpt (pa2F a pa ps pr y) := by
  unfold paCellF pa2F
  by_cases h3 : fire3F a pa ps pr y = true
  · rw [if_pos h3, if_pos h3]; rfl
  · rw [if_neg h3, if_neg h3]
    unfold pa1F
    by_cases h2 : fire2F pa pr y = true
    · rw [if_pos h2, if_pos h2]; rfl
    · rw [if_neg h2, if_neg h2, ← hrpa, normOpt_toNumber]

/-- Reading the written rent-psf cell back recovers the zero-normalised
rule-4 local. -/
theorem toNumber_psCellF (rps : CellVal) (a pa ps pr y : Option ℚ)
    (hrps : toNumber rps = ps) :
    toNumber (psCellF rps a pa ps pr y) = normOpt (ps1F a pa ps pr y) := by
  unfold psCellF ps1F
  by_cases h4 : fire4F a pa ps pr y = true
  · rw [if_pos h4, if_pos h4]; rfl
  · rw [if_neg h4, if_neg h4, ← hrps, normOpt_toNumber]

/-- Reading the written area cell back recovers the zero-normalised
rule-5 local. -/
theorem toNumber_aCellF (rarea : CellVal) (a pa ps pr y : Option ℚ)
    (hra : toNumber rarea = a) :
    toNumber (aCellF rarea a pa ps pr y) = normOpt (a1F a pa ps pr y) := by
  unfold aCellF a1F
  by_cases h5 : fire5F a pa ps pr y = true
  · rw [if_pos h5, if_pos h5]; rfl
  · rw [if_neg h5, if_neg h5, ← hra, normOpt_toNumber]

/-- Reading the written capital-value cell back recovers the
zero-normalised rule-6 local. -/
theorem toNumber_cvCellF (rcv : CellVal) (a pa ps pr y cv : Option ℚ)
    (hrcv : toNumber rcv = cv) :
    toNumber (cvCellF rcv a pa ps pr y cv) = normOpt (cv1F a pa ps pr y cv) := by
  unfold cvCellF cv1F
  by_cases h6 : fire6F a pa ps pr y cv = true
  · rw [if_pos h6, if_pos h6]; rfl
  · rw [if_neg h6, if_neg h6, ← hrcv, normOpt_toNumber]

/-- Rule 2 writes when it fires. -/
theorem pa1F_pos {pa pr y : Option ℚ} (h : fire2F pa pr y = true) :
    pa1F pa pr y = some (v2F pr y) := by
  unfold pa1F; rw [if_pos h]

/-- Rule 2 leaves the local alone when it does not fire. -/
theorem pa1F_neg {pa pr y : Option ℚ} (h : fire2F pa pr y = false) :
    pa1F pa pr y = pa := by
  unfold pa1F; rw [if_neg (by simp [h])]

/-- Rule 3 writes when it fires. -/
theorem pa2F_pos {a pa ps pr y : Option ℚ} (h : fire3F a pa ps pr y = true) :
    pa2F a pa ps pr y = some (v3F a ps) := by
  unfold pa2F; rw [if_pos h]

/-- Rule 3 leaves the local alone when it does not fire. -/
theorem pa2F_neg {a pa ps pr y : Option ℚ} (h : fire3F a pa ps pr y = false) :
    pa2F a pa ps pr y = pa1F pa pr y := by
  unfold pa2F; rw [if_neg (by simp [h])]

/-- Rule 4 writes when it fires. -/
theorem ps1F_pos {a pa ps pr y : Option ℚ} (h : fire4F a pa ps pr y = true) :
    ps1F a pa ps pr y = some (v4F a pa ps pr y) := by
  unfold ps1F; rw [if_pos h]

/-- Rule 4 leaves the local alone when it does not fire. -/
theorem ps1F_neg {a pa ps pr y : Option ℚ} (h : fire4F a pa ps pr y = false) :
    ps1F a pa ps pr y = ps := by
  unfold ps1F; rw [if_neg (by simp [h])]

/-- Rule 5 writes when it fires. -/
theorem a1F_pos {a pa ps pr y : Option ℚ} (h : fire5F a pa ps pr y = true) :
    a1F a pa ps pr y = some (v5F a pa ps pr y) := by
  unfold a1F; rw [if_pos h]

/-- Rule 5 leaves the local alone when it does not fire. -/
theorem a1F_neg {a pa ps pr y : Option ℚ} (h : fire5F a pa ps pr y = false) :
    a1F a pa ps pr y = a := by
  unfold a1F; rw [if_neg (by simp [h])]

/-- Rule 6 writes when it fires. -/
theorem cv1F_pos {a pa ps pr y cv : Option ℚ} (h : fire6F a pa ps pr y cv = true) :
    cv1F a pa ps pr y cv = some (v6F a pa ps pr y) := by
  unfold cv1F; rw [if_pos h]

/-- Rule 6 leaves the local alone when it does not fire. -/
theorem cv1F_neg {a pa ps pr y cv : Option ℚ} (h : fire6F a pa ps pr y cv = false) :
    cv1F a pa ps pr y cv = cv := by
  unfold cv1F; rw [if_neg (by simp [h])]

/-- The rent-p.a. cell when rule 3 fires. -/
theorem paCellF_pos3 {rpa : CellVal} {a pa ps pr y : Option ℚ}
    (h3 : fire3F a pa ps pr y = true) :
    paCellF rpa a pa ps pr y = .num (v3F a ps) := by
  unfold paCellF; rw [if_pos h3]

/-- The rent-p.a. cell when only rule 2 fires. -/
theorem paCellF_pos2 {rpa : CellVal} {a pa ps pr y : Option ℚ}
    (h3 : fire3F a pa ps pr y = false) (h2 : fire2F pa pr y = true) :
    paCellF rpa a pa ps pr y = .num (v2F pr y) := by
  unfold paCellF; rw [if_neg (by simp [h3]), if_pos h2]

/-- The rent-p.a. cell when neither rule fires. -/
theorem paCellF_neg {rpa : CellVal} {a pa ps pr y : Option ℚ}
    (h3 : fire3F a pa ps pr y = false) (h2 : fire2F pa pr y = false) :
    paCellF rpa a pa ps pr y = rpa := by
  unfold paCellF; rw [if_neg (by simp [h3]), if_neg (by simp [h2])]

/-- The rent-psf cell when rule 4 fires. -/
theorem psCellF_pos {rps : CellVal} {a pa ps pr y : Option ℚ}
    (h : fire4F a pa ps pr y = true) :
    psCellF rps a pa ps pr y = .num (v4F a pa ps pr y) := by
  unfold psCellF; rw [if_pos h]

/-- The rent-psf cell when rule 4 does not fire. -/
theorem psCellF_neg {rps : CellVal} {a pa ps pr y : Option ℚ}
    (h : fire4F a pa ps pr y = false) :
    psCellF rps a pa ps pr y = rps := by
  unfold psCellF; rw [if_neg (by simp [h])]

/-- The area cell when rule 5 fires. -/
theorem aCellF_pos {rarea : CellVal} {a pa ps pr y : Option ℚ}
    (h : fire5F a pa ps pr y = true) :
    aCellF rarea a pa ps pr y = .num (v5F a pa ps pr y) := by
  unfold aCellF; rw [if_pos h]

/-- The area cell when rule 5 does not fire. -/
theorem aCellF_neg {rarea : CellVal} {a pa ps pr y : Option ℚ}
    (h : fire5F a pa ps pr y = false) :
    aCellF rarea a pa ps pr y = rarea := by
  unfold aCellF; rw [if_neg (by simp [h])]

/-- The capital-value cell when rule 6 fires. -/
theorem cvCellF_pos {rcv : CellVal} {a pa ps pr y cv : Option ℚ}
    (h : fire6F a pa ps pr y cv = true) :
    cvCellF rcv a pa ps pr y cv = .num (v6F a pa ps pr y) := by
  unfold cvCellF; rw [if_pos h]

/-- The capital-value cell when rule 6 does not fire. -/
theorem cvCellF_neg {rcv : CellVal} {a pa ps pr y cv : Option ℚ}
    (h : fire6F a pa ps pr y cv = false) :
    cvCellF rcv a pa ps pr y cv = rcv := by
  unfold cvCellF; rw [if_neg (by simp [h])]

/-- Feeding the post-cascade locals back through rules 2–3 reproduces
the same rent-p.a. local and the same rent-p.a. cell: a re-fire can only
happen when the first pass wrote a rounded zero, and then it rewrites
the identical value. -/
theorem stable_pa (a pa ps pr y : Option ℚ) :
    pa2F (a1F a pa ps pr y) (pa2F a pa ps pr y) (ps1F a pa ps pr y) pr y =
      pa2F a pa ps pr y ∧
    ∀ rpa, paCellF (paCellF rpa a pa ps pr y) (a1F a pa ps pr y)
        (pa2F a pa ps pr y) (ps1F a pa ps pr y) pr y = paCellF rpa a pa ps pr y := by
  by_cases hT : otruthy (pa2F a pa ps pr y) = true
  · have h2' : fire2F (pa2F a pa ps pr y) pr y = false := by
      unfold fire2F; rw [hT]; rfl
    have h1' := pa1F_neg h2'
    have h3' : fire3F (a1F a pa ps pr y) (pa2F a pa ps pr y)
        (ps1F a pa ps pr y) pr y = false := by
      unfold fire3F; rw [h1', hT]; rfl
    exact ⟨(pa2F_neg h3').trans h1', fun rpa => paCellF_neg h3' h2'⟩
  · replace hT : otruthy (pa2F a pa ps pr y) = false := by
      revert hT; cases otruthy (pa2F a pa ps pr y) <;> simp
    have h4 : fire4F a pa ps pr y = false := by
      unfold fire4F; rw [hT]; simp
    have hS1 : ps1F a pa ps pr y = ps := ps1F_neg h4
    have h5 : fire5F a pa ps pr y = false := by
      unfold fire5F; rw [hT]; simp
    have hA1 : a1F a pa ps pr y = a := a1F_neg h5
    by_cases h3 : fire3F a pa ps pr y = true
    · have hP2 : pa2F a pa ps pr y = some (v3F a ps) := pa2F_pos h3
      have hv3 : v3F a ps = 0 := by
        rw [hP2] at hT; simpa [otruthy] using hT
      have h3parts := h3
      unfold fire3F at h3parts
      rw [Bool.and_eq_true, Bool.and_eq_true] at h3parts
      obtain ⟨⟨hpa1, hs⟩, hA⟩ := h3parts
      rw [Bool.not_eq_true'] at hpa1
      by_cases h2 : fire2F pa pr y = true
      · have hP1 : pa1F pa pr y = some (v2F pr y) := pa1F_pos h2
        have hv2 : v2F pr y = 0 := by
          rw [hP1] at hpa1; simpa [otruthy] using hpa1
        have h2parts := h2
        unfold fire2F at h2parts
        rw [Bool.and_eq_true, Bool.and_eq_true] at h2parts
        obtain ⟨⟨_, hpr⟩, hy⟩ := h2parts
        have h2' : fire2F (pa2F a pa ps pr y) pr y = true := by
          unfold fire2F; rw [hT, hpr, hy]; rfl
        have h1' := pa1F_pos h2'
        have h3' : fire3F (a1F a pa ps pr y) (pa2F a pa ps pr y)
            (ps1F a pa ps pr y) pr y = true := by
          unfold fire3F
          rw [h1', hv2, hS1, hA1, hs, hA]
          simp [otruthy]
        refine ⟨?_, fun rpa => ?_⟩
        · rw [pa2F_pos h3', hA1, hS1, hP2]
        · rw [paCellF_pos3 h3', paCellF_pos3 h3, hA1, hS1]
      · replace h2 : fire2F pa pr y = false := by
          revert h2; cases fire2F pa pr y <;> simp
        have hP1 : pa1F pa pr y = pa := pa1F_neg h2
        have hpa0 : otruthy pa = false := by rw [hP1] at hpa1; exact hpa1
        have hpry : (otruthy pr && otruthy y) = false := by
          have h2x := h2
          unfold fire2F at h2x
          rw [hpa0] at h2x
          simpa using h2x
        have h2' : fire2F (pa2F a pa ps pr y) pr y = false := by
          unfold fire2F; rw [hT]; simpa using hpry
        have h1' := pa1F_neg h2'
        have h3' : fire3F (a1F a pa ps pr y) (pa2F a pa ps pr y)
            (ps1F a pa ps pr y) pr y = true := by
          unfold fire3F; rw [h1', hT, hS1, hA1, hs, hA]; rfl
        refine ⟨?_, fun rpa => ?_⟩
        · rw [pa2F_pos h3', hA1, hS1, hP2]
        · rw [paCellF_pos3 h3', paCellF_pos3 h3, hA1, hS1]
    · replace h3 : fire3F a pa ps pr y = false := by
        revert h3; cases fire3F a pa ps pr y <;> simp
      have hP2 : pa2F a pa ps pr y = pa1F pa pr y := pa2F_neg h3
      by_cases h2 : fire2F pa pr y = true
      · have hP1 : pa1F pa pr y = some (v2F pr y) := pa1F_pos h2
        have hv2 : v2F pr y = 0 := by
          rw [hP2, hP1] at hT; simpa [otruthy] using hT
        have h2parts := h2
        unfold fire2F at h2parts
        rw [Bool.and_eq_true, Bool.and_eq_true] at h2parts
        obtain ⟨⟨_, hpr⟩, hy⟩ := h2parts
        have hsa : (otruthy ps && otruthy a) = false := by
          have h3x := h3
          unfold fire3F at h3x
          rw [hP1, hv2] at h3x
          simpa [otruthy] using h3x
        have h2' : fire2F (pa2F a pa ps pr y) pr y = true := by
          unfold fire2F; rw [hT, hpr, hy]; rfl
        have h1' := pa1F_pos h2'
        have h3' : fire3F (a1F a pa ps pr y) (pa2F a pa ps pr y)
            (ps1F a pa ps pr y) pr y = false := by
          unfold fire3F
          rw [h1', hv2, hS1, hA1]
          simpa [otruthy] using hsa
        refine ⟨?_, fun rpa => ?_⟩
        · rw [pa2F_neg h3', h1', hP2, hP1]
        · rw [paCellF_pos2 h3' h2', paCellF_pos2 h3 h2]
      · replace h2 : fire2F pa pr y = false := by
          revert h2; cases fire2F pa pr y <;> simp
        have hP1 : pa1F pa pr y = pa := pa1F_neg h2
        have hpa0 : otruthy pa = false := by rw [hP2, hP1] at hT; exact hT
        have hpry : (otruthy pr && otruthy y) = false := by
          have h2x := h2
          unfold fire2F at h2x
          rw [hpa0] at h2x
          simpa using h2x
        have hsa : (otruthy ps && otruthy a) = false := by
          have h3x := h3
          unfold fire3F at h3x
          rw [hP1, hpa0] at h3x
          simpa using h3x
        have h2' : fire2F (pa2F a pa ps pr y) pr y = false := by
          unfold fire2F; rw [hT]; simpa using hpry
        have h1' := pa1F_neg h2'
        have h3' : fire3F (a1F a pa ps pr y) (pa2F a pa ps pr y)
            (ps1F a pa ps pr y) pr y = false := by
          unfold fire3F; rw [h1', hT, hS1, hA1]; simpa using hsa
        refine ⟨?_, fun rpa => ?_⟩
        · rw [pa2F_neg h3', h1', hP2]
        · rw [paCellF_neg h3' h2']

/-- Feeding the post-cascade locals back through rule 4 reproduces the
same rent-psf local and cell. -/
theorem stable_ps (a pa ps pr y : Option ℚ) :
    ps1F (a1F a pa ps pr y) (pa2F a pa ps pr y) (ps1F a pa ps pr y) pr y =
      ps1F a pa ps pr y ∧
    ∀ rps, psCellF (psCellF rps a pa ps pr y) (a1F a pa ps pr y)
        (pa2F a pa ps pr y) (ps1F a pa ps pr y) pr y = psCellF rps a pa ps pr y := by
  obtain ⟨hpa, -⟩ := stable_pa a pa ps pr y
  have h4eq : fire4F (a1F a pa ps pr y) (pa2F a pa ps pr y)
      (ps1F a pa ps pr y) pr y =
      (!otruthy (ps1F a pa ps pr y) && otruthy (pa2F a pa ps pr y) &&
        otruthy (a1F a pa ps pr y)) := by
    unfold fire4F; rw [hpa]
  by_cases hT : otruthy (pa2F a pa ps pr y) = true
  · by_cases h4 : fire4F a pa ps pr y = true
    · have h4parts := h4
      unfold fire4F at h4parts
      rw [Bool.and_eq_true, Bool.and_eq_true] at h4parts
      obtain ⟨⟨hps, -⟩, hA⟩ := h4parts
      have h5 : fire5F a pa ps pr y = false := by
        unfold fire5F; rw [hA]; rfl
      have hA1 : a1F a pa ps pr y = a := a1F_neg h5
      have hS1 : ps1F a pa ps pr y = some (v4F a pa ps pr y) := ps1F_pos h4
      by_cases hv4 : v4F a pa ps pr y = 0
      · have hot : otruthy (ps1F a pa ps pr y) = false := by
          rw [hS1, hv4]; simp [otruthy]
        have h4' : fire4F (a1F a pa ps pr y) (pa2F a pa ps pr y)
            (ps1F a pa ps pr y) pr y = true := by
          rw [h4eq, hot, hT, hA1, hA]; rfl
        have hv4'' : v4F (a1F a pa ps pr y) (pa2F a pa ps pr y)
            (ps1F a pa ps pr y) pr y = v4F a pa ps pr y := by
          unfold v4F; rw [hpa, hA1]
        refine ⟨?_, fun rps => ?_⟩
        · rw [ps1F_pos h4', hv4'', hS1]
        · rw [psCellF_pos h4', psCellF_pos h4, hv4'']
      · have hot : otruthy (ps1F a pa ps pr y) = true := by
          rw [hS1]; simp [otruthy, hv4]
        have h4' : fire4F (a1F a pa ps pr y) (pa2F a pa ps pr y)
            (ps1F a pa ps pr y) pr y = false := by
          rw [h4eq, hot]; rfl
        exact ⟨ps1F_neg h4', fun rps => by rw [psCellF_neg h4']⟩
    · replace h4 : fire4F a pa ps pr y = false := by
        revert h4; cases fire4F a pa ps pr y <;> simp
      have hS1 : ps1F a pa ps pr y = ps := ps1F_neg h4
      by_cases hps : otruthy ps = true
      · have h4' : fire4F (a1F a pa ps pr y) (pa2F a pa ps pr y)
            (ps1F a pa ps pr y) pr y = false := by
          rw [h4eq, hS1, hps]; rfl
        exact ⟨ps1F_neg h4', fun rps => by rw [psCellF_neg h4']⟩
      · replace hps : otruthy ps = false := by
          revert hps; cases otruthy ps <;> simp
        have h5 : fire5F a pa ps pr y = false := by
          unfold fire5F; rw [hS1, hps]; simp
        have hA1 : a1F a pa ps pr y = a := a1F_neg h5
        have hA : otruthy a = false := by
          have h4x := h4
          unfold fire4F at h4x
          rw [hps, hT] at h4x
          simpa using h4x
        have h4' : fire4F (a1F a pa ps pr y) (pa2F a pa ps pr y)
            (ps1F a pa ps pr y) pr y = false := by
          rw [h4eq, hA1, hA]; simp
        exact ⟨ps1F_neg h4', fun rps => by rw [psCellF_neg h4']⟩
  · replace hT : otruthy (pa2F a pa ps pr y) = false := by
      revert hT; cases otruthy (pa2F a pa ps pr y) <;> simp
    have h4' : fire4F (a1F a pa ps pr y) (pa2F a pa ps pr y)
        (ps1F a pa ps pr y) pr y = false := by
      rw [h4eq, hT]; simp
    exact ⟨ps1F_neg h4', fun rps => by rw [psCellF_neg h4']⟩

/-- Feeding the post-cascade locals back through rule 5 reproduces the
same area local and cell. -/
theorem stable_a (a pa ps pr y : Option ℚ) :
    a1F (a1F a pa ps pr y) (pa2F a pa ps pr y) (ps1F a pa ps pr y) pr y =
      a1F a pa ps pr y ∧
    ∀ ra, aCellF (aCellF ra a pa ps pr y) (a1F a pa ps pr y)
        (pa2F a pa ps pr y) (ps1F a pa ps pr y) pr y = aCellF ra a pa ps pr y := by
  obtain ⟨hpa, -⟩ := stable_pa a pa ps pr y
  obtain ⟨hps, -⟩ := stable_ps a pa ps pr y
  have h5eq : fire5F (a1F a pa ps pr y) (pa2F a pa ps pr y)
      (ps1F a pa ps pr y) pr y =
      (!otruthy (a1F a pa ps pr y) && otruthy (pa2F a pa ps pr y) &&
        otruthy (ps1F a pa ps pr y)) := by
    unfold fire5F; rw [hpa, hps]
  have hv5eq : v5F (a1F a pa ps pr y) (pa2F a pa ps pr y)
      (ps1F a pa ps pr y) pr y = v5F a pa ps pr y := by
    unfold v5F; rw [hpa, hps]
  by_cases h5 : fire5F a pa ps pr y = true
  · have h5parts := h5
    unfold fire5F at h5parts
    rw [Bool.and_eq_true, Bool.and_eq_true] at h5parts
    obtain ⟨⟨-, hp2⟩, hs1⟩ := h5parts
    have hA1 : a1F a pa ps pr y = some (v5F a pa ps pr y) := a1F_pos h5
    by_cases hv5 : v5F a pa ps pr y = 0
    · have hot : otruthy (a1F a pa ps pr y) = false := by
        rw [hA1, hv5]; simp [otruthy]
      have h5' : fire5F (a1F a pa ps pr y) (pa2F a pa ps pr y)
          (ps1F a pa ps pr y) pr y = true := by
        rw [h5eq, hot, hp2, hs1]; rfl
      refine ⟨?_, fun ra => ?_⟩
      · rw [a1F_pos h5', hv5eq, hA1]
      · rw [aCellF_pos h5', aCellF_pos h5, hv5eq]
    · have hot : otruthy (a1F a pa ps pr y) = true := by
        rw [hA1]; simp [otruthy, hv5]
      have h5' : fire5F (a1F a pa ps pr y) (pa2F a pa ps pr y)
          (ps1F a pa ps pr y) pr y = false := by
        rw [h5eq, hot]; rfl
      exact ⟨a1F_neg h5', fun ra => by rw [aCellF_neg h5']⟩
  · replace h5 : fire5F a pa ps pr y = false := by
      revert h5; cases fire5F a pa ps pr y <;> simp
    have hA1 : a1F a pa ps pr y = a := a1F_neg h5
    have h5' : fire5F (a1F a pa ps pr y) (pa2F a pa ps pr y)
        (ps1F a pa ps pr y) pr y = false := by
      rw [h5eq, hA1]; exact h5
    exact ⟨a1F_neg h5', fun ra => by rw [aCellF_neg h5']⟩

/-- Feeding the post-cascade locals back through rule 6 reproduces the
same capital-value cell. -/
theorem stable_cv (a pa ps pr y cv : Option ℚ) :
    ∀ rcv, cvCellF (cvCellF rcv a pa ps pr y cv) (a1F a pa ps pr y)
        (pa2F a pa ps pr y) (ps1F a pa ps pr y) pr y (cv1F a pa ps pr y cv) =
      cvCellF rcv a pa ps pr y cv := by
  obtain ⟨ha, -⟩ := stable_a a pa ps pr y
  have h6eq : fire6F (a1F a pa ps pr y) (pa2F a pa ps pr y)
      (ps1F a pa ps pr y) pr y (cv1F a pa ps pr y cv) =
      (!otruthy (cv1F a pa ps pr y cv) && otruthy pr &&
        otruthy (a1F a pa ps pr y)) := by
    unfold fire6F; rw [ha]
  have hv6eq : v6F (a1F a pa ps pr y) (pa2F a pa ps pr y)
      (ps1F a pa ps pr y) pr y = v6F a pa ps pr y := by
    unfold v6F; rw [ha]
  by_cases h6 : fire6F a pa ps pr y cv = true
  · have h6parts := h6
    unfold fire6F at h6parts
    rw [Bool.and_eq_true, Bool.and_eq_true] at h6parts
    obtain ⟨⟨-, hpr⟩, hA1⟩ := h6parts
    have hCV : cv1F a pa ps pr y cv = some (v6F a pa ps pr y) := cv1F_pos h6
    by_cases hv6 : v6F a pa ps pr y = 0
    · have hot : otruthy (cv1F a pa ps pr y cv) = false := by
        rw [hCV, hv6]; simp [otruthy]
      have h6' : fire6F (a1F a pa ps pr y) (pa2F a pa ps pr y)
          (ps1F a pa ps pr y) pr y (cv1F a pa ps pr y cv) = true := by
        rw [h6eq, hot, hpr, hA1]; rfl
      intro rcv
      rw [cvCellF_pos h6', cvCellF_pos h6, hv6eq]
    · have hot : otruthy (cv1F a pa ps pr y cv) = true := by
        rw [hCV]; simp [otruthy, hv6]
      have h6' : fire6F (a1F a pa ps pr y) (pa2F a pa ps pr y)
          (ps1F a pa ps pr y) pr y (cv1F a pa ps pr y cv) = false := by
        rw [h6eq, hot]; rfl
      intro rcv
      rw [cvCellF_neg h6']
  · replace h6 : fire6F a pa ps pr y cv = false := by
      revert h6; cases fire6F a pa ps pr y cv <;> simp
    have hCV : cv1F a pa ps pr y cv = cv := cv1F_neg h6
    have h6' : fire6F (a1F a pa ps pr y) (pa2F a pa ps pr y)
        (ps1F a pa ps pr y) pr y (cv1F a pa ps pr y cv) = false := by
      rw [h6eq, hCV]; exact h6
    intro rcv
    rw [cvCellF_neg h6']

/-- The cascade's triggers and written values only see its numeric
locals through truthiness and `getD 0`, so zero-normalised locals
produce the same cells. -/
theorem cascade_congr (a a2 pa pb ps ps2 pr y : Option ℚ)
    (hA : otruthy a2 = otruthy a) (hAg : a2.getD 0 = a.getD 0)
    (hP : otruthy pb = otruthy pa) (hPg : pb.getD 0 = pa.getD 0)
    (hS : otruthy ps2 = otruthy ps) (hSg : ps2.getD 0 = ps.getD 0) :
    (∀ rpa, paCellF rpa a2 pb ps2 pr y = paCellF rpa a pa ps pr y) ∧
    (∀ rps, psCellF rps a2 pb ps2 pr y = psCellF rps a pa ps pr y) ∧
    (∀ ra, aCellF ra a2 pb ps2 pr y = aCellF ra a pa ps pr y) ∧
    (∀ cv2 cv rcv, otruthy cv2 = otruthy cv →
      cvCellF rcv a2 pb ps2 pr y cv2 = cvCellF rcv a pa ps pr y cv) := by
  have h2 : fire2F pb pr y = fire2F pa pr y := by
    unfold fire2F; rw [hP]
  have h1 : otruthy (pa1F pb pr y) = otruthy (pa1F pa pr y) ∧
      (pa1F pb pr y).getD 0 = (pa1F pa pr y).getD 0 := by
    unfold pa1F; rw [h2]
    by_cases hf : fire2F pa pr y = true
    · rw [if_pos hf, if_pos hf]; exact ⟨rfl, rfl⟩
    · rw [if_neg hf, if_neg hf]; exact ⟨hP, hPg⟩
  have h3 : fire3F a2 pb ps2 pr y = fire3F a pa ps pr y := by
    unfold fire3F; rw [h1.1, hS, hA]
  have hv3 : v3F a2 ps2 = v3F a ps := by
    unfold v3F; rw [hSg, hAg]
  have hpa2 : otruthy (pa2F a2 pb ps2 pr y) = otruthy (pa2F a pa ps pr y) ∧
      (pa2F a2 pb ps2 pr y).getD 0 = (pa2F a pa ps pr y).getD 0 := by
    unfold pa2F; rw [h3, hv3]
    by_cases hf : fire3F a pa ps pr y = true
    · rw [if_pos hf, if_pos hf]; exact ⟨rfl, rfl⟩
    · rw [if_neg hf, if_neg hf]; exact h1
  have h4 : fire4F a2 pb ps2 pr y = fire4F a pa ps pr y := by
    unfold fire4F; rw [hS, hpa2.1, hA]
  have hv4 : v4F a2 pb ps2 pr y = v4F a pa ps pr y := by
    unfold v4F; rw [hpa2.2, hAg]
  have hps1 : otruthy (ps1F a2 pb ps2 pr y) = otruthy (ps1F a pa ps pr y) ∧
      (ps1F a2 pb ps2 pr y).getD 0 = (ps1F a pa ps pr y).getD 0 := by
    unfold ps1F; rw [h4, hv4]
    by_cases hf : fire4F a pa ps pr y = true
    · rw [if_pos hf, if_pos hf]; exact ⟨rfl, rfl⟩
    · rw [if_neg hf, if_neg hf]; exact ⟨hS, hSg⟩
  have h5 : fire5F a2 pb ps2 pr y = fire5F a pa ps pr y := by
    unfold fire5F; rw [hA, hpa2.1, hps1.1]
  have hv5 : v5F a2 pb ps2 pr y = v5F a pa ps pr y := by
    unfold v5F; rw [hpa2.2, hps1.2]
  have ha1 : otruthy (a1F a2 pb ps2 pr y) = otruthy (a1F a pa ps pr y) ∧
      (a1F a2 pb ps2 pr y).getD 0 = (a1F a pa ps pr y).getD 0 := by
    unfold a1F; rw [h5, hv5]
    by_cases hf : fire5F a pa ps pr y = true
    · rw [if_pos hf, if_pos hf]; exact ⟨rfl, rfl⟩
    · rw [if_neg hf, if_neg hf]; exact ⟨hA, hAg⟩
  have hv6 : v6F a2 pb ps2 pr y = v6F a pa ps pr y := by
    unfold v6F; rw [ha1.2]
  refine ⟨fun rpa => ?_, fun rps => ?_, fun ra => ?_, fun cv2 cv rcv hC => ?_⟩
  · unfold paCellF; rw [h3, h2, hv3]
  · unfold psCellF; rw [h4, hv4]
  · unfold aCellF; rw [h5, hv5]
  · unfold cvCellF fire6F; rw [hC, ha1.1, hv6]

/-- Rule 1 is idempotent: once a quarter is derived the cell is truthy
and the rule no longer fires; failed derivations repeat identically. -/
theorem rule1_idem (q c : CellVal) :
    rule1Quarter (rule1Quarter q c) c = rule1Quarter q c := by
  by_cases hq : pyTruthy q = true
  · have h : rule1Quarter q c = q := by
      unfold rule1Quarter; rw [hq]; rfl
    rw [h]; exact h
  · replace hq : pyTruthy q = false := by
      revert hq; cases pyTruthy q <;> simp
    by_cases hc : pyTruthy c = true
    · cases hder : deriveQuarterFromCell c with
      | none =>
        have h : rule1Quarter q c = q := by
          simp [rule1Quarter, hq, hc, hder]
        rw [h]; exact h
      | some s =>
        by_cases hs : s = []
        · have h : rule1Quarter q c = q := by
            simp [rule1Quarter, hq, hc, hder, hs]
          rw [h]; exact h
        · have h : rule1Quarter q c = .str s := by
            simp [rule1Quarter, hq, hc, hder, hs]
          rw [h]
          have hts : pyTruthy (CellVal.str s) = true := by
            simp [pyTruthy, hs]
          unfold rule1Quarter; rw [hts]; rfl
    · replace hc : pyTruthy c = false := by
        revert hc; cases pyTruthy c <;> simp
      have h : rule1Quarter q c = q := by
        simp [rule1Quarter, hc]
      rw [h]; exact h

/-- One row of the cleaner is idempotent: a second application of the
six-rule cascade changes no cell. -/
theorem cleanInvRow_idem (r : InvRowCells) :
    cleanInvRow (cleanInvRow r) = cleanInvRow r := by
  rw [cleanInvRow_F r, cleanInvRow_F]
  dsimp only
  obtain ⟨hcpa, hcps, hca, hccv⟩ := cascade_congr
    (a1F (toNumber r.area) (toNumber r.rent_pa) (toNumber r.rent_psf)
      (toNumber r.price) (toNumber r.yield_niy))
    (normOpt (a1F (toNumber r.area) (toNumber r.rent_pa) (toNumber r.rent_psf)
      (toNumber r.price) (toNumber r.yield_niy)))
    (pa2F (toNumber r.area) (toNumber r.rent_pa) (toNumber r.rent_psf)
      (toNumber r.price) (toNumber r.yield_niy))
    (normOpt (pa2F (toNumber r.area) (toNumber r.rent_pa) (toNumber r.rent_psf)
      (toNumber r.price) (toNumber r.yield_niy)))
    (ps1F (toNumber r.area) (toNumber r.rent_pa) (toNumber r.rent_psf)
      (toNumber r.price) (toNumber r.yield_niy))
    (normOpt (ps1F (toNumber r.area) (toNumber r.rent_pa) (toNumber r.rent_psf)
      (toNumber r.price) (toNumber r.yield_niy)))
    (toNumber r.price) (toNumber r.yield_niy)
    (otruthy_normOpt _) (getD_normOpt _) (otruthy_normOpt _) (getD_normOpt _)
    (otruthy_normOpt _) (getD_normOpt _)
  rw [toNumber_aCellF _ _ _ _ _ _ rfl, toNumber_paCellF _ _ _ _ _ _ rfl,
    toNumber_psCellF _ _ _ _ _ _ rfl, toNumber_cvCellF _ _ _ _ _ _ _ rfl]
  simp only [InvRowCells.mk.injEq, true_and, and_true]
  refine ⟨rule1_idem r.quarter r.date, ?_, ?_, ?_, ?_⟩
  · exact (hca _).trans ((stable_a (toNumber r.area) (toNumber r.rent_pa)
      (toNumber r.rent_psf) (toNumber r.price) (toNumber r.yield_niy)).2 r.area)
  · exact (hcpa _).trans ((stable_pa (toNumber r.area) (toNumber r.rent_pa)
      (toNumber r.rent_psf) (toNumber r.price) (toNumber r.yield_niy)).2 r.rent_pa)
  · exact (hcps _).trans ((stable_ps (toNumber r.area) (toNumber r.rent_pa)
      (toNumber r.rent_psf) (toNumber r.price) (toNumber r.yield_niy)).2 r.rent_psf)
  · exact (hccv _ _ _ (otruthy_normOpt _)).trans
      (stable_cv (toNumber r.area) (toNumber r.rent_pa) (toNumber r.rent_psf)
        (toNumber r.price) (toNumber r.yield_niy) (toNumber r.capval) r.capval)

/-- C5: Derivation idempotence.  Every rule of the investment-comps
derivation engine fires only when its output cell is currently blank,
so running `clean_investment_comps` twice over the same store — per row
and over the whole sheet — yields cell values identical to running it
once.  (A rule can re-fire only when the first pass wrote a rounded
zero, which the engine treats as blank; it then recomputes the identical
value from the unchanged inputs.) -/
theorem derivation_idempotent :
    (∀ r : InvRowCells, cleanInvRow (cleanInvRow r) = cleanInvRow r) ∧
    (∀ rows : List InvSheetRowC, cleanPass (cleanPass rows) = cleanPass rows) := by
  refine ⟨cleanInvRow_idem, fun rows => ?_⟩
  unfold cleanPass
  rw [List.map_map]
  apply List.map_congr_left
  intro r _
  by_cases h : pyTruthy r.addr = true
  · simp only [Function.comp_apply, h, if_true]
    rw [cleanInvRow_idem]
  · simp only [Function.comp_apply, h, Bool.false_eq_true, if_false]
